import Mathlib

/-!
Verification of the WiredTiger binary file decoder
(src/third_party/wiredtiger/tools/wt_binary_decode.py).

Embedding conventions: byte sequences are lists of natural numbers
(each below 256 for real bytes), the mutable binary stream is an
explicit cursor over a list, Python integers are Int or Nat, and
Python exceptions are an explicit error type threaded through
Except.  Printer output relevant to the verified properties is
recorded as an event trace.  Python bitwise operators on
arbitrary-precision integers are modelled by Nat.lor / Int.lor and
shifts; a Python shift x << k means multiplication by 2 ^ k.
-/

/-- Python exceptions raised on the decoder paths that we model. -/
inductive PyErr where
  | valueError (msg : String)
  | indexError
  | exn (msg : String)
deriving DecidableEq, Repr

/-- Source getbits: the least significant bits of x, from start to e. -/
def getbits (x start e : Nat) : Nat :=
  (x &&& ((1 <<< start) - 1)) >>> e

/-- Source get_int: big-endian accumulation of size bytes, shifting
the accumulator and or-ing each byte in; none models the IndexError
raised when fewer than size bytes exist. -/
def get_int (b : List Nat) (size : Nat) : Option Nat :=
  if size ≤ b.length then
    some ((b.take size).foldl (fun r bi => (r <<< 8) ||| bi) 0)
  else none

def NEG_MULTI_MARKER : Nat := 0x10

def NEG_2BYTE_MARKER : Nat := 0x20

def NEG_1BYTE_MARKER : Nat := 0x40

def POS_1BYTE_MARKER : Nat := 0x80

def POS_2BYTE_MARKER : Nat := 0xc0

def POS_MULTI_MARKER : Nat := 0xe0

def NEG_1BYTE_MIN : Int := -(2 ^ 6)

def NEG_2BYTE_MIN : Int := -(2 ^ 13) + NEG_1BYTE_MIN

def POS_1BYTE_MAX : Int := 2 ^ 6 - 1

def POS_2BYTE_MAX : Int := 2 ^ 13 + POS_1BYTE_MAX

/-- Source unpack_int: decode one variable-length integer from the
front of a byte list, returning the value and the remaining bytes.
Python -1 << (sz << 3) is the negative sign-extension mask and the
subsequent | is bitwise or on arbitrary-precision integers. -/
def unpack_int (b : List Nat) : Except PyErr (Int × List Nat) :=
  match b with
  | [] => .error .indexError
  | marker :: rest =>
    if marker < NEG_MULTI_MARKER ∨ 0xf0 ≤ marker then
      .error (.valueError "Not a packed integer")
    else if marker < NEG_2BYTE_MARKER then
      let szi : Int := 8 - (getbits marker 4 0 : Int)
      if szi < 0 then .error (.valueError "Not a valid packed integer")
      else
        let sz : Nat := szi.toNat
        match get_int rest sz with
        | none => .error .indexError
        | some part2 =>
          .ok (Int.lor ((-1 : Int) <<< ((sz <<< 3 : Nat) : Int)) part2, rest.drop sz)
    else if marker < NEG_1BYTE_MARKER then
      match rest with
      | [] => .error .indexError
      | b1 :: _ =>
        .ok (NEG_2BYTE_MIN + (((getbits marker 5 0 <<< 8) ||| b1 : Nat) : Int), rest.drop 1)
    else if marker < POS_1BYTE_MARKER then
      .ok (NEG_1BYTE_MIN + (getbits marker 6 0 : Int), rest)
    else if marker < POS_2BYTE_MARKER then
      .ok ((getbits marker 6 0 : Int), rest)
    else if marker < POS_MULTI_MARKER then
      match rest with
      | [] => .error .indexError
      | b1 :: _ =>
        .ok (POS_1BYTE_MAX + 1 + (((getbits marker 5 0 <<< 8) ||| b1 : Nat) : Int), rest.drop 1)
    else
      let sz : Nat := getbits marker 4 0
      match get_int rest sz with
      | none => .error .indexError
      | some v => .ok (POS_2BYTE_MAX + 1 + (v : Int), rest.drop sz)

/-- Specification-side big-endian value of a byte list. -/
def beNat (bs : List Nat) : Nat :=
  bs.foldl (fun r b => r * 256 + b) 0

deriving instance DecidableEq for Except

/-! ### Bit-level helper lemmas -/

theorem shiftLeft_three (sz : Nat) : sz <<< 3 = 8 * sz := by
  rw [Nat.shiftLeft_eq]
  ring

theorem lor_shift_eq_add (r bi : Nat) (h : bi < 256) :
    (r <<< 8) ||| bi = r * 256 + bi := by
  apply Nat.eq_of_testBit_eq
  intro j
  have h256 : (256 : Nat) = 2 ^ 8 := by norm_num
  rw [Nat.testBit_or, Nat.shiftLeft_eq]
  have hmul : r * 2 ^ 8 = 2 ^ 8 * r + 0 := by ring
  have hadd : r * 256 + bi = 2 ^ 8 * r + bi := by rw [h256]; ring
  rw [hmul, hadd, Nat.testBit_mul_pow_two_add r (by norm_num) j,
    Nat.testBit_mul_pow_two_add r (h256 ▸ h) j]
  by_cases hj : j < 8
  · simp [hj]
  · have : bi < 2 ^ j := by
      calc bi < 2 ^ 8 := h256 ▸ h
      _ ≤ 2 ^ j := Nat.pow_le_pow_right (by norm_num) (by omega)
    simp [hj, Nat.testBit_eq_false_of_lt this]

theorem get_int_foldl_eq_beNat (bs : List Nat) (hb : ∀ x ∈ bs, x < 256) :
    ∀ acc : Nat, bs.foldl (fun r bi => (r <<< 8) ||| bi) acc
      = bs.foldl (fun r b => r * 256 + b) acc := by
  induction bs with
  | nil => intro acc; rfl
  | cons b t ih =>
    intro acc
    have hbb : b < 256 := hb b (by simp)
    simp only [List.foldl_cons, lor_shift_eq_add acc b hbb]
    exact ih (fun x hx => hb x (by simp [hx])) _

theorem beNat_foldl_lt (bs : List Nat) (hb : ∀ x ∈ bs, x < 256) :
    ∀ acc : Nat, bs.foldl (fun r b => r * 256 + b) acc
      < (acc + 1) * 2 ^ (8 * bs.length) := by
  induction bs with
  | nil => intro acc; simp
  | cons b t ih =>
    intro acc
    have hbb : b < 256 := hb b (by simp)
    simp only [List.foldl_cons, List.length_cons]
    have h1 : t.foldl (fun r b => r * 256 + b) (acc * 256 + b)
        < (acc * 256 + b + 1) * 2 ^ (8 * t.length) :=
      ih (fun x hx => hb x (by simp [hx])) _
    calc t.foldl (fun r b => r * 256 + b) (acc * 256 + b)
        < (acc * 256 + b + 1) * 2 ^ (8 * t.length) := h1
      _ ≤ ((acc + 1) * 256) * 2 ^ (8 * t.length) := by
          apply Nat.mul_le_mul_right
          omega
      _ = (acc + 1) * 2 ^ (8 * (t.length + 1)) := by
          rw [show 8 * (t.length + 1) = 8 * t.length + 8 by ring, pow_add]
          ring

theorem beNat_lt (bs : List Nat) (hb : ∀ x ∈ bs, x < 256) :
    beNat bs < 2 ^ (8 * bs.length) := by
  have := beNat_foldl_lt bs hb 0
  simpa [beNat] using this

theorem ldiff_mask (k : Nat) : ∀ n : Nat, n < 2 ^ k →
    Nat.ldiff (2 ^ k - 1) n = 2 ^ k - 1 - n := by
  induction k with
  | zero =>
    intro n hn
    interval_cases n
    show Nat.bitwise _ (2 ^ 0 - 1) 0 = _
    rw [Nat.bitwise]
    norm_num
  | succ k ih =>
    intro n hn
    show Nat.bitwise _ (2 ^ (k + 1) - 1) n = _
    rw [Nat.bitwise]
    have hk1 : (2 : Nat) ^ (k + 1) - 1 ≠ 0 := by
      have : (2 : Nat) ^ (k + 1) ≥ 2 := by
        calc (2 : Nat) ^ (k + 1) ≥ 2 ^ 1 := Nat.pow_le_pow_right (by norm_num) (by omega)
          _ = 2 := by norm_num
      omega
    simp only [hk1, if_false]
    by_cases hn0 : n = 0
    · simp [hn0]
    · simp only [hn0, if_false]
      have hpow : (2 : Nat) ^ (k + 1) = 2 * 2 ^ k := by ring
      have hdiv : (2 ^ (k + 1) - 1) / 2 = 2 ^ k - 1 := by
        have h1 : (2 : Nat) ^ k ≥ 1 := Nat.one_le_two_pow
        omega
      have hmod : (2 ^ (k + 1) - 1) % 2 = 1 := by
        have h1 : (2 : Nat) ^ k ≥ 1 := Nat.one_le_two_pow
        omega
      have hn2 : n / 2 < 2 ^ k := by omega
      have hr : Nat.bitwise (fun b b' => b && !b') ((2 ^ (k + 1) - 1) / 2) (n / 2)
          = 2 ^ k - 1 - n / 2 := by
        rw [hdiv]
        exact ih (n / 2) hn2
      rw [hmod, hr]
      have h1 : (2 : Nat) ^ k ≥ 1 := Nat.one_le_two_pow
      rcases Nat.mod_two_eq_zero_or_one n with hpar | hpar
      · simp only [hpar]
        norm_num
        omega
      · simp only [hpar]
        norm_num
        omega

theorem int_lor_neg_pow (k n : Nat) (h : n < 2 ^ k) :
    Int.lor (-(2 ^ k : Int)) (n : Int) = (n : Int) - 2 ^ k := by
  have hrepr : (-(2 ^ k : Int)) = Int.negSucc (2 ^ k - 1) := by
    rw [Int.negSucc_eq]
    have h1 : (1 : Nat) ≤ 2 ^ k := Nat.one_le_two_pow
    push_cast [h1]
    ring
  have hcast : (n : Int) = Int.ofNat n := rfl
  rw [hrepr, hcast]
  show Int.negSucc (Nat.ldiff (2 ^ k - 1) n) = _
  rw [ldiff_mask k n h, Int.negSucc_eq, Int.ofNat_eq_natCast]
  have h1 : (1 : Nat) ≤ 2 ^ k := Nat.one_le_two_pow
  have hle : n ≤ 2 ^ k - 1 := by omega
  push_cast [hle, h1]
  ring

theorem neg_one_shift_eq (k : Nat) :
    ((-1 : Int) <<< ((k : Nat) : Int)) = -(2 ^ k : Int) := by
  rw [Int.shiftLeft_eq_mul_pow]
  push_cast
  ring

theorem getbits_zero (x s : Nat) : getbits x s 0 = x % 2 ^ s := by
  simp [getbits, Nat.shiftLeft_eq, Nat.and_pow_two_sub_one_eq_mod]

theorem get_int_eq_beNat (b : List Nat) (sz : Nat) (hlen : sz ≤ b.length)
    (hb : ∀ x ∈ b.take sz, x < 256) :
    get_int b sz = some (beNat (b.take sz)) := by
  rw [get_int, if_pos hlen, beNat, get_int_foldl_eq_beNat _ hb 0]

/-- C1: For every byte sequence whose first byte (the marker) lies in
0x10-0xEF and that contains the number of following bytes the marker
calls for, varint decode returns the value given by the marker table:
markers 0x40-0x7F decode to -2^6 plus the low 6 bits; 0x80-0xBF to the
low 6 bits; 0x20-0x3F to (-2^13-2^6) plus the 13-bit value from the low
5 marker bits and one following byte; 0xC0-0xDF to 2^6 plus that 13-bit
value; 0xE0-0xEF to (2^13+2^6) plus the big-endian zero-extension of l
following bytes (l the low nibble); 0x10-0x1F to the sign-extension of
8-l following bytes (meaningful when l is at most 8, the only markers
for which a byte sequence can contain the called-for byte count).  The
boundary values -2^6, -1, 0, 2^6-1, 2^6, 2^13+2^6-1, 2^13+2^6 fall at
the documented range boundaries. -/
theorem varint_marker_table (marker : Nat) (rest : List Nat) :
    (0x40 ≤ marker → marker < 0x80 →
      unpack_int (marker :: rest) = .ok (-(2 ^ 6) + ((marker % 2 ^ 6 : Nat) : Int), rest)) ∧
    (0x80 ≤ marker → marker < 0xc0 →
      unpack_int (marker :: rest) = .ok (((marker % 2 ^ 6 : Nat) : Int), rest)) ∧
    (∀ b1 r2, 0x20 ≤ marker → marker < 0x40 → b1 < 256 →
      unpack_int (marker :: b1 :: r2)
        = .ok (-(2 ^ 13) - 2 ^ 6 + ((marker % 2 ^ 5 * 2 ^ 8 + b1 : Nat) : Int), r2)) ∧
    (∀ b1 r2, 0xc0 ≤ marker → marker < 0xe0 → b1 < 256 →
      unpack_int (marker :: b1 :: r2)
        = .ok (2 ^ 6 + ((marker % 2 ^ 5 * 2 ^ 8 + b1 : Nat) : Int), r2)) ∧
    (0xe0 ≤ marker → marker < 0xf0 → marker % 16 ≤ rest.length →
      (∀ x ∈ rest.take (marker % 16), x < 256) →
      unpack_int (marker :: rest)
        = .ok (2 ^ 13 + 2 ^ 6 + ((beNat (rest.take (marker % 16)) : Nat) : Int),
            rest.drop (marker % 16))) ∧
    (0x10 ≤ marker → marker < 0x20 → marker % 16 ≤ 8 →
      8 - marker % 16 ≤ rest.length →
      (∀ x ∈ rest.take (8 - marker % 16), x < 256) →
      unpack_int (marker :: rest)
        = .ok (((beNat (rest.take (8 - marker % 16)) : Nat) : Int)
              - 2 ^ (8 * (8 - marker % 16)),
            rest.drop (8 - marker % 16))) ∧
    unpack_int [0x40] = .ok (-(2 ^ 6), []) ∧
    unpack_int [0x7f] = .ok (-1, []) ∧
    unpack_int [0x80] = .ok (0, []) ∧
    unpack_int [0xbf] = .ok (2 ^ 6 - 1, []) ∧
    unpack_int [0xc0, 0x00] = .ok (2 ^ 6, []) ∧
    unpack_int [0xdf, 0xff] = .ok (2 ^ 13 + 2 ^ 6 - 1, []) ∧
    unpack_int [0xe0] = .ok (2 ^ 13 + 2 ^ 6, []) := by
  refine ⟨?_, ?_, ?_, ?_, ?_, ?_, by decide, by decide, by decide, by decide,
    by decide, by decide, by decide⟩
  · intro h1 h2
    simp only [unpack_int, NEG_MULTI_MARKER, NEG_2BYTE_MARKER, NEG_1BYTE_MARKER,
      POS_1BYTE_MARKER, POS_2BYTE_MARKER, POS_MULTI_MARKER]
    rw [if_neg (by omega), if_neg (by omega), if_neg (by omega), if_pos (by omega)]
    rw [getbits_zero]
    simp [NEG_1BYTE_MIN]
  · intro h1 h2
    simp only [unpack_int, NEG_MULTI_MARKER, NEG_2BYTE_MARKER, NEG_1BYTE_MARKER,
      POS_1BYTE_MARKER, POS_2BYTE_MARKER, POS_MULTI_MARKER]
    rw [if_neg (by omega), if_neg (by omega), if_neg (by omega), if_neg (by omega),
      if_pos (by omega)]
    rw [getbits_zero]
  · intro b1 r2 h1 h2 hb1
    simp only [unpack_int, NEG_MULTI_MARKER, NEG_2BYTE_MARKER, NEG_1BYTE_MARKER,
      POS_1BYTE_MARKER, POS_2BYTE_MARKER, POS_MULTI_MARKER]
    rw [if_neg (by omega), if_neg (by omega), if_pos (by omega)]
    rw [lor_shift_eq_add _ _ hb1, getbits_zero]
    simp only [List.drop_succ_cons, List.drop_zero]
    norm_num [NEG_2BYTE_MIN, NEG_1BYTE_MIN]
  · intro b1 r2 h1 h2 hb1
    simp only [unpack_int, NEG_MULTI_MARKER, NEG_2BYTE_MARKER, NEG_1BYTE_MARKER,
      POS_1BYTE_MARKER, POS_2BYTE_MARKER, POS_MULTI_MARKER]
    rw [if_neg (by omega), if_neg (by omega), if_neg (by omega), if_neg (by omega),
      if_neg (by omega), if_pos (by omega)]
    rw [lor_shift_eq_add _ _ hb1, getbits_zero]
    simp only [List.drop_succ_cons, List.drop_zero]
    norm_num [POS_1BYTE_MAX]
  · intro h1 h2 hlen hbytes
    simp only [unpack_int, NEG_MULTI_MARKER, NEG_2BYTE_MARKER, NEG_1BYTE_MARKER,
      POS_1BYTE_MARKER, POS_2BYTE_MARKER, POS_MULTI_MARKER]
    rw [if_neg (by omega), if_neg (by omega), if_neg (by omega), if_neg (by omega),
      if_neg (by omega), if_neg (by omega)]
    have hsz : getbits marker 4 0 = marker % 16 := by
      rw [getbits_zero]; norm_num
    rw [hsz, get_int_eq_beNat rest (marker % 16) hlen hbytes]
    norm_num [POS_2BYTE_MAX, POS_1BYTE_MAX]
  · intro h1 h2 hl8 hlen hbytes
    simp only [unpack_int, NEG_MULTI_MARKER, NEG_2BYTE_MARKER, NEG_1BYTE_MARKER,
      POS_1BYTE_MARKER, POS_2BYTE_MARKER, POS_MULTI_MARKER]
    rw [if_neg (by omega), if_pos (by omega)]
    have hg : getbits marker 4 0 = marker % 16 := by
      rw [getbits_zero]; norm_num
    rw [hg, if_neg (by omega)]
    have htn : (8 - ((marker % 16 : Nat) : Int)).toNat = 8 - marker % 16 := by omega
    rw [htn, get_int_eq_beNat rest (8 - marker % 16) hlen hbytes]
    have hval : Int.lor ((-1 : Int) <<< (((8 - marker % 16) <<< 3 : Nat) : Int))
        ((beNat (rest.take (8 - marker % 16)) : Nat) : Int)
        = ((beNat (rest.take (8 - marker % 16)) : Nat) : Int)
          - 2 ^ (8 * (8 - marker % 16)) := by
      rw [neg_one_shift_eq, shiftLeft_three]
      apply int_lor_neg_pow
      have hlt := beNat_lt (rest.take (8 - marker % 16)) hbytes
      have hlen2 : (rest.take (8 - marker % 16)).length = 8 - marker % 16 := by
        rw [List.length_take]; omega
      rwa [hlen2] at hlt
    simp [hval]

/-- Witness for C1: the marker-table theorem applied to the concrete
input 0x12 01 02 03 04 05 06 (negative multi-byte form, l = 2, six
following bytes), whose sign-extended value is 0x010203040506 - 2^48. -/
theorem varint_marker_table_witness :
    unpack_int [0x12, 1, 2, 3, 4, 5, 6] = .ok (-280366824553210, []) := by
  have h := (varint_marker_table 0x12 [1, 2, 3, 4, 5, 6]).2.2.2.2.2.1
    (by norm_num) (by norm_num) (by norm_num) (by norm_num) (by decide)
  norm_num [beNat] at h
  exact h

/-- C2 (amended): varint decode fails with the malformed-varint error
when the first byte is in the reserved ranges 0x00-0x0F or 0xF0-0xFF,
and additionally for first bytes 0x19-0x1F, whose low nibble exceeds 8
(the code rejects a negative byte count); for every other first byte
in 0x10-0xEF, given sufficient following bytes (15 suffice for every
form), decode succeeds and returns a value. -/
theorem varint_failure_ranges (marker : Nat) (rest : List Nat) :
    (marker < 0x10 ∨ 0xf0 ≤ marker →
      unpack_int (marker :: rest) = .error (.valueError "Not a packed integer")) ∧
    (0x19 ≤ marker → marker < 0x20 →
      unpack_int (marker :: rest) = .error (.valueError "Not a valid packed integer")) ∧
    (0x10 ≤ marker → marker < 0xf0 → (marker < 0x19 ∨ 0x20 ≤ marker) →
      15 ≤ rest.length →
      ∃ v r, unpack_int (marker :: rest) = .ok (v, r)) := by
  refine ⟨?_, ?_, ?_⟩
  · intro h
    simp only [unpack_int, NEG_MULTI_MARKER]
    rw [if_pos (by omega)]
  · intro h1 h2
    simp only [unpack_int, NEG_MULTI_MARKER, NEG_2BYTE_MARKER, getbits_zero]
    rw [if_neg (by omega), if_pos (by omega), if_pos (by omega)]
  · intro h1 h2 h3 hlen
    simp only [unpack_int, NEG_MULTI_MARKER, NEG_2BYTE_MARKER, NEG_1BYTE_MARKER,
      POS_1BYTE_MARKER, POS_2BYTE_MARKER, POS_MULTI_MARKER, getbits_zero]
    rcases Nat.lt_or_ge marker 0x20 with hm | hm
    · rw [if_neg (by omega), if_pos (by omega), if_neg (by omega)]
      rw [get_int, if_pos (by omega)]
      exact ⟨_, _, rfl⟩
    · rcases Nat.lt_or_ge marker 0x40 with hm2 | hm2
      · cases rest with
        | nil => simp at hlen
        | cons b1 r =>
          rw [if_neg (by omega), if_neg (by omega), if_pos (by omega)]
          exact ⟨_, _, rfl⟩
      · rcases Nat.lt_or_ge marker 0x80 with hm3 | hm3
        · rw [if_neg (by omega), if_neg (by omega), if_neg (by omega), if_pos (by omega)]
          exact ⟨_, _, rfl⟩
        · rcases Nat.lt_or_ge marker 0xc0 with hm4 | hm4
          · rw [if_neg (by omega), if_neg (by omega), if_neg (by omega),
              if_neg (by omega), if_pos (by omega)]
            exact ⟨_, _, rfl⟩
          · rcases Nat.lt_or_ge marker 0xe0 with hm5 | hm5
            · cases rest with
              | nil => simp at hlen
              | cons b1 r =>
                rw [if_neg (by omega), if_neg (by omega), if_neg (by omega),
                  if_neg (by omega), if_neg (by omega), if_pos (by omega)]
                exact ⟨_, _, rfl⟩
            · rw [if_neg (by omega), if_neg (by omega), if_neg (by omega),
                if_neg (by omega), if_neg (by omega), if_neg (by omega)]
              rw [get_int, if_pos (by omega)]
              exact ⟨_, _, rfl⟩

/-- Counterexample to C2 as stated: the first byte 0x19 lies in
0x10-0xEF and sixteen following bytes are available, more than any
form needs, yet decode raises the malformed-varint error rather than
succeeding. -/
theorem varint_failure_ranges_cx :
    unpack_int (0x19 :: List.replicate 16 0)
      = .error (.valueError "Not a valid packed integer") := by
  decide

/-- Witness for C2: the amended theorem applied to the concrete first
byte 0xF2, which is rejected as not a packed integer. -/
theorem varint_failure_ranges_witness :
    unpack_int [0xf2, 5] = .error (.valueError "Not a packed integer") :=
  (varint_failure_ranges 0xf2 [5]).1 (Or.inr (by norm_num))

/-! ### Byte streams: the source wraps io.BytesIO in BinFile -/

/-- Source BinFile over io.BytesIO: the full byte list plus a cursor.
Reading past the end returns fewer bytes; seeking is unrestricted. -/
structure BinFile where
  data : List Nat
  pos : Nat
deriving DecidableEq, Repr

/-- BytesIO read: up to n bytes from the cursor, advancing by the
number of bytes actually returned. -/
def BinFile.read (b : BinFile) (n : Nat) : List Nat × BinFile :=
  let bs := (b.data.drop b.pos).take n
  (bs, { b with pos := b.pos + bs.length })

def BinFile.seek (b : BinFile) (n : Nat) : BinFile :=
  { b with pos := n }

def BinFile.tell (b : BinFile) : Nat :=
  b.pos

/-- Python int.from_bytes with byteorder little. -/
def le_bytes (bs : List Nat) : Nat :=
  bs.foldr (fun x r => x + 256 * r) 0

/-- Source uint8: little-endian value of up to one byte (0 at EOF). -/
def uint8 (b : BinFile) : Nat × BinFile :=
  let (bs, b) := b.read 1
  (le_bytes bs, b)

/-- Source uint16. -/
def uint16 (b : BinFile) : Nat × BinFile :=
  let (bs, b) := b.read 2
  (le_bytes bs, b)

/-- Source uint32. -/
def uint32 (b : BinFile) : Nat × BinFile :=
  let (bs, b) := b.read 4
  (le_bytes bs, b)

/-- Source uint64. -/
def uint64 (b : BinFile) : Nat × BinFile :=
  let (bs, b) := b.read 8
  (le_bytes bs, b)

/-- Python b.read(1)[0]: one byte, or IndexError at end of file. -/
def read1 (b : BinFile) : Except PyErr (Nat × BinFile) :=
  let (bs, b) := b.read 1
  match bs with
  | [] => .error .indexError
  | x :: _ => .ok (x, b)

/-- Source BinFile.read called with a Python int length: negative
lengths raise an Exception before any read happens. -/
def readInt (b : BinFile) (n : Int) : Except PyErr (List Nat × BinFile) :=
  if n < 0 then .error (.exn "The read length must be >= 0")
  else .ok (b.read n.toNat)

/-- Source unpack_uint64: unpack_int at the cursor through
file_as_array, which reads the consumed bytes sequentially. -/
def unpack_uint64 (b : BinFile) : Except PyErr (Int × BinFile) :=
  match unpack_int (b.data.drop b.pos) with
  | .error e => .error e
  | .ok (v, rest) =>
    .ok (v, { b with pos := b.pos + ((b.data.drop b.pos).length - rest.length) })

/-- Source unpack_uint64_with_sz: also reports the consumed size,
computed from the cursor movement. -/
def unpack_uint64_with_sz (b : BinFile) : Except PyErr (Int × Nat × BinFile) :=
  match unpack_int (b.data.drop b.pos) with
  | .error e => .error e
  | .ok (v, rest) =>
    let sz := (b.data.drop b.pos).length - rest.length
    .ok (v, sz, { b with pos := b.pos + sz })

/-! ### Cells and page statistics -/

/-- Source PageStats dataclass (counts as Nat, byte totals as Int). -/
structure PageStats where
  num_keys : Nat
  keys_sz : Int
  num_d_start_ts : Nat
  d_start_ts_sz : Int
  num_d_stop_ts : Nat
  d_stop_ts_sz : Int
  num_start_ts : Nat
  start_ts_sz : Int
  num_stop_ts : Nat
  stop_ts_sz : Int
  num_start_txn : Nat
  start_txn_sz : Int
  num_stop_txn : Nat
  stop_txn_sz : Int
deriving DecidableEq, Repr

/-- The all-zero statistics a page decode starts from. -/
def PageStats.init : PageStats :=
  ⟨0, 0, 0, 0, 0, 0, 0, 0, 0, 0, 0, 0, 0, 0⟩

def WT_CELL_PREPARE : Nat := 0x01

def WT_CELL_TS_DURABLE_START : Nat := 0x02

def WT_CELL_TS_DURABLE_STOP : Nat := 0x04

def WT_CELL_TS_START : Nat := 0x08

def WT_CELL_TS_STOP : Nat := 0x10

def WT_CELL_TXN_START : Nat := 0x20

def WT_CELL_TXN_STOP : Nat := 0x40

/-- One conditional timestamp/transaction field of
process_timestamps: when the extra-byte flag is set, decode one packed
integer and fold its count and consumed size into the statistics. -/
def ts_step (cond : Bool) (upd : PageStats → Nat → PageStats) (b : BinFile)
    (st : PageStats) : Except PyErr (BinFile × PageStats) :=
  if cond then
    (unpack_uint64_with_sz b).bind fun vsb => .ok (vsb.2.2, upd st vsb.2.1)
  else .ok (b, st)

/-- Source process_timestamps: decode the timestamp and transaction
fields announced by the extra descriptor byte, in the fixed bit order,
accumulating counts and consumed sizes. -/
def process_timestamps (b : BinFile) (extra : Nat) (st : PageStats) :
    Except PyErr (BinFile × PageStats) :=
  if extra ≠ 0 then
    (ts_step (extra &&& WT_CELL_TS_DURABLE_START != 0)
      (fun s sz => { s with d_start_ts_sz := s.d_start_ts_sz + sz,
                            num_d_start_ts := s.num_d_start_ts + 1 }) b st).bind fun p1 =>
    (ts_step (extra &&& WT_CELL_TS_DURABLE_STOP != 0)
      (fun s sz => { s with d_stop_ts_sz := s.d_stop_ts_sz + sz,
                            num_d_stop_ts := s.num_d_stop_ts + 1 }) p1.1 p1.2).bind fun p2 =>
    (ts_step (extra &&& WT_CELL_TS_START != 0)
      (fun s sz => { s with start_ts_sz := s.start_ts_sz + sz,
                            num_start_ts := s.num_start_ts + 1 }) p2.1 p2.2).bind fun p3 =>
    (ts_step (extra &&& WT_CELL_TS_STOP != 0)
      (fun s sz => { s with stop_ts_sz := s.stop_ts_sz + sz,
                            num_stop_ts := s.num_stop_ts + 1 }) p3.1 p3.2).bind fun p4 =>
    (ts_step (extra &&& WT_CELL_TXN_START != 0)
      (fun s sz => { s with start_txn_sz := s.start_txn_sz + sz,
                            num_start_txn := s.num_start_txn + 1 }) p4.1 p4.2).bind fun p5 =>
    ts_step (extra &&& WT_CELL_TXN_STOP != 0)
      (fun s sz => { s with stop_txn_sz := s.stop_txn_sz + sz,
                            num_stop_txn := s.num_stop_txn + 1 }) p5.1 p5.2
  else .ok (b, st)

/-- Source celltype_string. -/
def celltype_string (b : Nat) : String :=
  if b == 0 then "WT_CELL_ADDR_DEL"
  else if b == 1 then "WT_CELL_ADDR_INT"
  else if b == 2 then "WT_CELL_ADDR_LEAF"
  else if b == 3 then "WT_CELL_ADDR_LEAF_NO"
  else if b == 4 then "WT_CELL_DEL"
  else if b == 5 then "WT_CELL_KEY"
  else if b == 6 then "WT_CELL_KEY_OVFL"
  else if b == 12 then "WT_CELL_KEY_OVFL_RM"
  else if b == 7 then "WT_CELL_KEY_PFX"
  else if b == 8 then "WT_CELL_VALUE"
  else if b == 9 then "WT_CELL_VALUE_COPY"
  else if b == 10 then "WT_CELL_VALUE_OVFL"
  else if b == 11 then "WT_CELL_VALUE_OVFL_RM"
  else "*** unknown cell type ***"

/-- Source long_length: lengths of non-short cells start at 64
(WT_CELL_SIZE_ADJUST), so the packed value plus 64 is the length. -/
def long_length (b : BinFile) : Except PyErr (Int × BinFile) :=
  (unpack_uint64 b).bind fun vb => .ok (vb.1 + 64, vb.2)

/-- Classification of one decoded cell in the row_decode loop. -/
inductive CellKind where
  | value
  | key
  | addrLeafNo
  | keyPfx
  | keyOvfl
  | valueOvfl
  | shortKeyPfx
  | shortKey
  | shortVal
  | notImplemented (celltype : Nat)
deriving DecidableEq, Repr

/-- Long-form cells, bit 4 of the descriptor: the optional extra
descriptor byte followed by its timestamp fields. -/
def extraStep (desc : Nat) (b : BinFile) (st : PageStats) :
    Except PyErr (Nat × BinFile × PageStats) :=
  if desc &&& 0x8 != 0 then
    (read1 b).bind fun eb =>
      (process_timestamps eb.2 eb.1 st).bind fun bst =>
        .ok (eb.1, bst.1, bst.2)
  else .ok (0, b, st)

/-- Long-form cells, bit 3 of the descriptor: the optional packed
run-length or record number. -/
def runlengthStep (desc : Nat) (b : BinFile) : Except PyErr BinFile :=
  if desc &&& 0x4 != 0 then
    (unpack_uint64 b).bind fun vb => .ok vb.2
  else .ok b

/-- Long-form cells: dispatch on the type tag in the top four
descriptor bits, exactly over the celltype_string names the source
compares against, decoding the length and reading the payload. -/
def dispatchCell (desc extra : Nat) (b : BinFile) (st : PageStats) :
    Except PyErr (CellKind × Int × BinFile × PageStats) :=
  let celltype := (desc &&& 0xf0) >>> 4
  if celltype_string celltype == "WT_CELL_VALUE" then
    (if extra ≠ 0 then unpack_uint64 b else long_length b).bind fun lb =>
      (readInt lb.2 lb.1).bind fun xb =>
        .ok (.value, lb.1, xb.2, st)
  else if celltype_string celltype == "WT_CELL_KEY" then
    (long_length b).bind fun lb =>
      (readInt lb.2 lb.1).bind fun xb =>
        .ok (.key, lb.1, xb.2,
          { st with num_keys := st.num_keys + 1, keys_sz := st.keys_sz + lb.1 })
  else if celltype_string celltype == "WT_CELL_ADDR_LEAF_NO" then
    (long_length b).bind fun lb =>
      (readInt lb.2 lb.1).bind fun xb =>
        .ok (.addrLeafNo, lb.1, xb.2,
          { st with num_keys := st.num_keys + 1, keys_sz := st.keys_sz + lb.1 })
  else if celltype_string celltype == "WT_CELL_KEY_PFX" then
    (long_length (uint8 b).2).bind fun lb =>
      (readInt lb.2 lb.1).bind fun xb =>
        .ok (.keyPfx, lb.1, xb.2,
          { st with num_keys := st.num_keys + 1, keys_sz := st.keys_sz + lb.1 })
  else if celltype_string celltype == "WT_CELL_KEY_OVFL" then
    (unpack_uint64 b).bind fun lb =>
      (readInt lb.2 lb.1).bind fun xb =>
        .ok (.keyOvfl, lb.1, xb.2,
          { st with num_keys := st.num_keys + 1, keys_sz := st.keys_sz + lb.1 })
  else if celltype_string celltype == "WT_CELL_VALUE_OVFL" then
    (unpack_uint64 b).bind fun lb =>
      (readInt lb.2 lb.1).bind fun xb =>
        .ok (.valueOvfl, lb.1, xb.2, st)
  else
    .ok (.notImplemented celltype, 0, b, st)

/-- One iteration of the source row_decode cell loop after the cell
start bookkeeping: read the descriptor byte and decode one cell,
returning its classification, decoded length, advanced stream and
updated statistics.  The raw_bytes pretty printing at the end of the
loop body reads nothing from the stream (dumpraw restores the cursor)
and its IndexError/ValueError are swallowed by the source. -/
def decode_cell (b : BinFile) (st : PageStats) :
    Except PyErr (CellKind × Int × BinFile × PageStats) :=
  let db := uint8 b
  let desc := db.1
  let b := db.2
  let short := desc &&& 0x3
  if short == 0 then
    (extraStep desc b st).bind fun ebs =>
      (runlengthStep desc ebs.2.1).bind fun b2 =>
        dispatchCell desc ebs.1 b2 ebs.2.2
  else if short == 2 then
    let l := (desc &&& 0xfc) >>> 2
    (read1 b).bind fun pb =>
      .ok (.shortKeyPfx, (l : Int), (pb.2.read l).2,
        { st with num_keys := st.num_keys + 1, keys_sz := st.keys_sz + l })
  else
    let l := (desc &&& 0xfc) >>> 2
    if short == 1 then
      .ok (.shortKey, (l : Int), (b.read l).2,
        { st with num_keys := st.num_keys + 1, keys_sz := st.keys_sz + l })
    else
      .ok (.shortVal, (l : Int), (b.read l).2, st)

/-- Observable events of the row_decode cell loop: begin_cell output,
the OVERFLOW memsize message and the not-implemented cell message. -/
inductive REvent where
  | cellStart (cellnum pos : Nat)
  | overflowMemsize
  | notImplemented (celltype : Nat)
deriving DecidableEq, Repr

/-- Result of the row_decode cell loop: a propagating Python exception
if one was raised, the final stream and statistics, and the events. -/
structure RowOut where
  err : Option PyErr
  b : BinFile
  stats : PageStats
  events : List REvent
deriving DecidableEq, Repr

/-- Source row_decode loop: iterate up to ncells cells, returning early
when a cell would start at or past memsize; an exception raised while
decoding a cell aborts the loop and propagates to the block scan. -/
def row_decode_go (memsize cellnum remaining : Nat) (b : BinFile) (st : PageStats) :
    RowOut :=
  match remaining with
  | 0 => ⟨none, b, st, []⟩
  | remaining' + 1 =>
    let cellpos := b.tell
    if memsize ≤ cellpos then ⟨none, b, st, [.overflowMemsize]⟩
    else
      match decode_cell b st with
      | .error e => ⟨some e, b, st, [.cellStart cellnum cellpos]⟩
      | .ok (kind, _, b', st') =>
        let out := row_decode_go memsize (cellnum + 1) remaining' b' st'
        match kind with
        | .notImplemented t =>
          ⟨out.err, out.b, out.stats,
            .cellStart cellnum cellpos :: .notImplemented t :: out.events⟩
        | _ =>
          ⟨out.err, out.b, out.stats, .cellStart cellnum cellpos :: out.events⟩

/-- Source row_decode on one page: the cell loop from cell number 0. -/
def row_decode (memsize ncells : Nat) (b : BinFile) (st : PageStats) : RowOut :=
  row_decode_go memsize 0 ncells b st

/-! ### Loop bounds of the cell loop (C8) -/

/-- Predicate picking out begin_cell events. -/
def REvent.isCellStart : REvent → Bool
  | .cellStart _ _ => true
  | _ => false

theorem getLast?_cons_of_mem {α : Type} (x y : α) (l : List α) (h : y ∈ l) :
    (x :: l).getLast? = l.getLast? := by
  cases l with
  | nil => cases h
  | cons a t => rw [List.getLast?_cons_cons]

theorem row_go_cellStart_count (memsize : Nat) :
    ∀ remaining cellnum b st,
      ((row_decode_go memsize cellnum remaining b st).events.countP
        REvent.isCellStart) ≤ remaining := by
  intro remaining
  induction remaining with
  | zero => intro cellnum b st; simp [row_decode_go]
  | succ r ih =>
    intro cellnum b st
    rw [row_decode_go]
    by_cases hpos : memsize ≤ b.tell
    · simp [hpos, List.countP_cons, REvent.isCellStart]
    · simp only [hpos, if_false]
      cases hdc : decode_cell b st with
      | error e => simp [List.countP_cons, REvent.isCellStart]
      | ok out =>
        obtain ⟨kind, l, b', st'⟩ := out
        have hout := ih (cellnum + 1) b' st'
        cases kind <;>
          simp_all [List.countP_cons, REvent.isCellStart]


/-- Events contributed by the kind of a decoded cell (the
not-implemented message for unknown types, nothing otherwise). -/
def kindEvents : CellKind → List REvent
  | .notImplemented t => [REvent.notImplemented t]
  | _ => []

theorem kindEvents_no_cellStart (k : CellKind) (c p : Nat) :
    REvent.cellStart c p ∉ kindEvents k := by
  cases k <;> simp [kindEvents]

theorem kindEvents_no_overflow (k : CellKind) :
    REvent.overflowMemsize ∉ kindEvents k := by
  cases k <;> simp [kindEvents]

theorem row_go_step (memsize cellnum r : Nat) (b : BinFile) (st : PageStats)
    (hpos : b.tell < memsize) (kind : CellKind) (l : Int) (b' : BinFile)
    (st' : PageStats) (hdc : decode_cell b st = .ok (kind, l, b', st')) :
    row_decode_go memsize cellnum (r + 1) b st
      = ⟨(row_decode_go memsize (cellnum + 1) r b' st').err,
         (row_decode_go memsize (cellnum + 1) r b' st').b,
         (row_decode_go memsize (cellnum + 1) r b' st').stats,
         REvent.cellStart cellnum b.tell ::
           (kindEvents kind ++ (row_decode_go memsize (cellnum + 1) r b' st').events)⟩ := by
  rw [row_decode_go]
  rw [if_neg (by omega), hdc]
  cases kind <;> simp [kindEvents]

theorem row_go_step_overflow (memsize cellnum r : Nat) (b : BinFile) (st : PageStats)
    (hpos : memsize ≤ b.tell) :
    row_decode_go memsize cellnum (r + 1) b st = ⟨none, b, st, [.overflowMemsize]⟩ := by
  rw [row_decode_go, if_pos hpos]

theorem row_go_step_err (memsize cellnum r : Nat) (b : BinFile) (st : PageStats)
    (hpos : b.tell < memsize) (e : PyErr) (hdc : decode_cell b st = .error e) :
    row_decode_go memsize cellnum (r + 1) b st
      = ⟨some e, b, st, [.cellStart cellnum b.tell]⟩ := by
  rw [row_decode_go, if_neg (by omega), hdc]

theorem row_go_cellStart_lt_memsize (memsize : Nat) :
    ∀ remaining cellnum b st c p,
      REvent.cellStart c p ∈ (row_decode_go memsize cellnum remaining b st).events →
      p < memsize := by
  intro remaining
  induction remaining with
  | zero => intro cellnum b st c p h; simp [row_decode_go] at h
  | succ r ih =>
    intro cellnum b st c p h
    by_cases hpos : memsize ≤ b.tell
    · rw [row_go_step_overflow memsize cellnum r b st hpos] at h
      simp at h
    · cases hdc : decode_cell b st with
      | error e =>
        rw [row_go_step_err memsize cellnum r b st (by omega) e hdc] at h
        simp at h
        omega
      | ok out =>
        obtain ⟨kind, l, b', st'⟩ := out
        rw [row_go_step memsize cellnum r b st (by omega) kind l b' st' hdc] at h
        simp only [List.mem_cons, List.mem_append] at h
        rcases h with h | h | h
        · cases h; omega
        · exact absurd h (kindEvents_no_cellStart kind c p)
        · exact ih (cellnum + 1) b' st' c p h

theorem row_go_overflow_last (memsize : Nat) :
    ∀ remaining cellnum b st,
      REvent.overflowMemsize ∈ (row_decode_go memsize cellnum remaining b st).events →
      (row_decode_go memsize cellnum remaining b st).events.getLast?
        = some REvent.overflowMemsize := by
  intro remaining
  induction remaining with
  | zero => intro cellnum b st h; simp [row_decode_go] at h
  | succ r ih =>
    intro cellnum b st h
    by_cases hpos : memsize ≤ b.tell
    · rw [row_go_step_overflow memsize cellnum r b st hpos]
      rfl
    · cases hdc : decode_cell b st with
      | error e =>
        rw [row_go_step_err memsize cellnum r b st (by omega) e hdc] at h
        simp at h
      | ok out =>
        obtain ⟨kind, l, b', st'⟩ := out
        rw [row_go_step memsize cellnum r b st (by omega) kind l b' st' hdc] at h ⊢
        simp only [List.mem_cons, List.mem_append] at h
        rcases h with h | h | h
        · cases h
        · exact absurd h (kindEvents_no_overflow kind)
        · have hne : (row_decode_go memsize (cellnum + 1) r b' st').events ≠ [] := by
            intro hnil
            rw [hnil] at h
            cases h
          have hlast := ih (cellnum + 1) b' st' h
          show (REvent.cellStart cellnum b.tell ::
            (kindEvents kind ++ (row_decode_go memsize (cellnum + 1) r b' st').events)).getLast?
              = some REvent.overflowMemsize
          rw [show REvent.cellStart cellnum b.tell ::
              (kindEvents kind ++ (row_decode_go memsize (cellnum + 1) r b' st').events)
              = (REvent.cellStart cellnum b.tell :: kindEvents kind)
                ++ (row_decode_go memsize (cellnum + 1) r b' st').events from rfl]
          rw [List.getLast?_append_of_ne_nil _ hne, hlast]

/-- C8: for every page handed to the cell decoder, the per-cell loop
executes at most PageHeader.ncells iterations (at most ncells begin_cell
events), every cell actually begun starts at a cursor position strictly
below memsize, and when a cell start position reaches or passes memsize
the decoder signals the overflow and stops: the overflow event, when
present, is the last event of the page. -/
theorem row_decode_loop_bounds (memsize ncells : Nat) (b : BinFile) (st : PageStats) :
    ((row_decode memsize ncells b st).events.countP REvent.isCellStart ≤ ncells) ∧
    (∀ c p, REvent.cellStart c p ∈ (row_decode memsize ncells b st).events →
      p < memsize) ∧
    (REvent.overflowMemsize ∈ (row_decode memsize ncells b st).events →
      (row_decode memsize ncells b st).events.getLast? = some REvent.overflowMemsize) :=
  ⟨row_go_cellStart_count memsize ncells 0 b st,
   fun c p h => row_go_cellStart_lt_memsize memsize ncells 0 b st c p h,
   fun h => row_go_overflow_last memsize ncells 0 b st h⟩

/-- Witness for C8 at a concrete page: two cells requested, the first
(a short key of two bytes) starts at position 0 below memsize 1, the
second would start at position 3 past memsize, so the loop signals
overflow as its final event. -/
theorem row_decode_loop_bounds_witness :
    ((row_decode 1 2 ⟨[0x09, 0x41, 0x42], 0⟩ PageStats.init).events.countP
      REvent.isCellStart ≤ 2) ∧
    (0 : Nat) < 1 ∧
    (row_decode 1 2 ⟨[0x09, 0x41, 0x42], 0⟩ PageStats.init).events.getLast?
      = some REvent.overflowMemsize :=
  ⟨(row_decode_loop_bounds 1 2 ⟨[0x09, 0x41, 0x42], 0⟩ PageStats.init).1,
   (row_decode_loop_bounds 1 2 ⟨[0x09, 0x41, 0x42], 0⟩ PageStats.init).2.1 0 0 (by decide),
   (row_decode_loop_bounds 1 2 ⟨[0x09, 0x41, 0x42], 0⟩ PageStats.init).2.2 (by decide)⟩

/-! ### Key accounting (C3) -/

theorem except_bind_ok {ε α β : Type} {x : Except ε α} {f : α → Except ε β} {r : β}
    (h : x.bind f = .ok r) : ∃ a, x = .ok a ∧ f a = .ok r := by
  cases x with
  | error e => exact absurd h (by simp [Except.bind])
  | ok a => exact ⟨a, rfl, h⟩

theorem ts_step_keys {cond : Bool} {upd : PageStats → Nat → PageStats}
    {b : BinFile} {st : PageStats} {out : BinFile × PageStats}
    (h : ts_step cond upd b st = .ok out)
    (hupd : ∀ s n, (upd s n).num_keys = s.num_keys ∧ (upd s n).keys_sz = s.keys_sz) :
    out.2.num_keys = st.num_keys ∧ out.2.keys_sz = st.keys_sz := by
  rw [ts_step] at h
  split at h
  · obtain ⟨a, hu, h⟩ := except_bind_ok h
    cases h
    exact hupd st _
  · cases h
    exact ⟨rfl, rfl⟩

theorem process_timestamps_keys {b : BinFile} {extra : Nat} {st : PageStats}
    {out : BinFile × PageStats} (h : process_timestamps b extra st = .ok out) :
    out.2.num_keys = st.num_keys ∧ out.2.keys_sz = st.keys_sz := by
  rw [process_timestamps] at h
  split at h
  case isFalse =>
    cases h
    exact ⟨rfl, rfl⟩
  case isTrue =>
    obtain ⟨p1, h1, h⟩ := except_bind_ok h
    obtain ⟨p2, h2, h⟩ := except_bind_ok h
    obtain ⟨p3, h3, h⟩ := except_bind_ok h
    obtain ⟨p4, h4, h⟩ := except_bind_ok h
    obtain ⟨p5, h5, h6⟩ := except_bind_ok h
    have k1 := ts_step_keys h1 (fun s n => ⟨rfl, rfl⟩)
    have k2 := ts_step_keys h2 (fun s n => ⟨rfl, rfl⟩)
    have k3 := ts_step_keys h3 (fun s n => ⟨rfl, rfl⟩)
    have k4 := ts_step_keys h4 (fun s n => ⟨rfl, rfl⟩)
    have k5 := ts_step_keys h5 (fun s n => ⟨rfl, rfl⟩)
    have k6 := ts_step_keys h6 (fun s n => ⟨rfl, rfl⟩)
    exact ⟨by rw [k6.1, k5.1, k4.1, k3.1, k2.1, k1.1],
           by rw [k6.2, k5.2, k4.2, k3.2, k2.2, k1.2]⟩

theorem extraStep_keys {desc : Nat} {b : BinFile} {st : PageStats}
    {out : Nat × BinFile × PageStats} (h : extraStep desc b st = .ok out) :
    out.2.2.num_keys = st.num_keys ∧ out.2.2.keys_sz = st.keys_sz := by
  rw [extraStep] at h
  split at h
  · obtain ⟨eb, he, h⟩ := except_bind_ok h
    obtain ⟨bst, hp, h⟩ := except_bind_ok h
    cases h
    exact process_timestamps_keys hp
  · cases h
    exact ⟨rfl, rfl⟩

/-- The cell kinds the source counts as keys. -/
def keyKinds : List CellKind :=
  [.key, .keyPfx, .addrLeafNo, .keyOvfl, .shortKey, .shortKeyPfx]

theorem decode_cell_keys {b : BinFile} {st : PageStats} {kind : CellKind} {l : Int}
    {b' : BinFile} {st' : PageStats} (h : decode_cell b st = .ok (kind, l, b', st')) :
    (kind ∈ keyKinds → st'.num_keys = st.num_keys + 1 ∧ st'.keys_sz = st.keys_sz + l) ∧
    (kind ∉ keyKinds → st'.num_keys = st.num_keys ∧ st'.keys_sz = st.keys_sz) := by
  simp only [decode_cell] at h
  split at h
  · obtain ⟨ebs, hex, h⟩ := except_bind_ok h
    obtain ⟨b2, hrun, h⟩ := except_bind_ok h
    have hkeys := extraStep_keys hex
    simp only [dispatchCell] at h
    split at h
    · obtain ⟨lb, hlb, h⟩ := except_bind_ok h
      obtain ⟨xb, hxb, h⟩ := except_bind_ok h
      simp only [Except.ok.injEq, Prod.mk.injEq] at h
      obtain ⟨hk, hl, hb2, hst2⟩ := h
      subst hk hst2
      exact ⟨fun hmem => by simp [keyKinds] at hmem, fun _ => hkeys⟩
    · split at h
      · obtain ⟨lb, hlb, h⟩ := except_bind_ok h
        obtain ⟨xb, hxb, h⟩ := except_bind_ok h
        simp only [Except.ok.injEq, Prod.mk.injEq] at h
        obtain ⟨hk, hl, hb2, hst2⟩ := h
        subst hk hst2 hl
        exact ⟨fun _ => ⟨by simp [hkeys.1], by simp [hkeys.2]⟩,
               fun hmem => by simp [keyKinds] at hmem⟩
      · split at h
        · obtain ⟨lb, hlb, h⟩ := except_bind_ok h
          obtain ⟨xb, hxb, h⟩ := except_bind_ok h
          simp only [Except.ok.injEq, Prod.mk.injEq] at h
          obtain ⟨hk, hl, hb2, hst2⟩ := h
          subst hk hst2 hl
          exact ⟨fun _ => ⟨by simp [hkeys.1], by simp [hkeys.2]⟩,
                 fun hmem => by simp [keyKinds] at hmem⟩
        · split at h
          · obtain ⟨lb, hlb, h⟩ := except_bind_ok h
            obtain ⟨xb, hxb, h⟩ := except_bind_ok h
            simp only [Except.ok.injEq, Prod.mk.injEq] at h
            obtain ⟨hk, hl, hb2, hst2⟩ := h
            subst hk hst2 hl
            exact ⟨fun _ => ⟨by simp [hkeys.1], by simp [hkeys.2]⟩,
                   fun hmem => by simp [keyKinds] at hmem⟩
          · split at h
            · obtain ⟨lb, hlb, h⟩ := except_bind_ok h
              obtain ⟨xb, hxb, h⟩ := except_bind_ok h
              simp only [Except.ok.injEq, Prod.mk.injEq] at h
              obtain ⟨hk, hl, hb2, hst2⟩ := h
              subst hk hst2 hl
              exact ⟨fun _ => ⟨by simp [hkeys.1], by simp [hkeys.2]⟩,
                     fun hmem => by simp [keyKinds] at hmem⟩
            · split at h
              · obtain ⟨lb, hlb, h⟩ := except_bind_ok h
                obtain ⟨xb, hxb, h⟩ := except_bind_ok h
                simp only [Except.ok.injEq, Prod.mk.injEq] at h
                obtain ⟨hk, hl, hb2, hst2⟩ := h
                subst hk hst2
                exact ⟨fun hmem => by simp [keyKinds] at hmem, fun _ => hkeys⟩
              · simp only [Except.ok.injEq, Prod.mk.injEq] at h
                obtain ⟨hk, hl, hb2, hst2⟩ := h
                subst hk hst2
                exact ⟨fun hmem => by simp [keyKinds] at hmem, fun _ => hkeys⟩
  · split at h
    · obtain ⟨pb, hpb, h⟩ := except_bind_ok h
      simp only [Except.ok.injEq, Prod.mk.injEq] at h
      obtain ⟨hk, hl, hb2, hst2⟩ := h
      subst hk hst2 hl
      exact ⟨fun _ => ⟨by simp, by simp⟩, fun hmem => by simp [keyKinds] at hmem⟩
    · split at h
      · simp only [Except.ok.injEq, Prod.mk.injEq] at h
        obtain ⟨hk, hl, hb2, hst2⟩ := h
        subst hk hst2 hl
        exact ⟨fun _ => ⟨by simp, by simp⟩, fun hmem => by simp [keyKinds] at hmem⟩
      · simp only [Except.ok.injEq, Prod.mk.injEq] at h
        obtain ⟨hk, hl, hb2, hst2⟩ := h
        subst hk hst2
        exact ⟨fun hmem => by simp [keyKinds] at hmem, fun _ => ⟨rfl, rfl⟩⟩

theorem short_key_desc_bits : ∀ l : Nat, l < 64 →
    (4 * l + 1) &&& 3 = 1 ∧ ((4 * l + 1) &&& 0xfc) >>> 2 = l := by
  decide

theorem le_bytes_single (x : Nat) : le_bytes [x] = x := by
  simp [le_bytes]

theorem uint8_cons (data : List Nat) (pos : Nat) (x : Nat) (t : List Nat)
    (hshape : data.drop pos = x :: t) :
    uint8 ⟨data, pos⟩ = (x, ⟨data, pos + 1⟩) := by
  simp [uint8, BinFile.read, hshape, le_bytes]

theorem decode_cell_short_key (data : List Nat) (pos : Nat) (pl sfx : List Nat)
    (st : PageStats) (hlen : pl.length ≤ 63)
    (hshape : data.drop pos = (4 * pl.length + 1) :: (pl ++ sfx)) :
    decode_cell ⟨data, pos⟩ st
      = .ok (.shortKey, (pl.length : Int), ⟨data, pos + 1 + pl.length⟩,
          { st with num_keys := st.num_keys + 1, keys_sz := st.keys_sz + pl.length }) := by
  have hbits := short_key_desc_bits pl.length (by omega)
  have hdrop1 : data.drop (pos + 1) = pl ++ sfx := by
    have h2 := List.drop_drop 1 pos data
    rw [hshape] at h2
    rw [← h2]
    rfl
  simp only [decode_cell, uint8_cons data pos _ _ hshape, hbits.1, hbits.2,
    BinFile.read, hdrop1, List.take_left' rfl]
  norm_num

/-- A synthetic page of short-key cells: one descriptor byte with the
length in bits 2-7 and short form 1 in the low bits, then the key. -/
def encodeShortKeys (cells : List (List Nat)) : List Nat :=
  cells.foldr (fun pl acc => (4 * pl.length + 1) :: pl ++ acc) []

theorem short_key_page_go (ms : Nat) :
    ∀ (cells : List (List Nat)) (data tail : List Nat) (pos : Nat) (st : PageStats)
      (cellnum : Nat),
      (∀ pl ∈ cells, pl.length ≤ 63) →
      data.drop pos = encodeShortKeys cells ++ tail →
      pos + (encodeShortKeys cells).length ≤ ms →
      (row_decode_go ms cellnum cells.length ⟨data, pos⟩ st).err = none ∧
      (row_decode_go ms cellnum cells.length ⟨data, pos⟩ st).stats.num_keys
        = st.num_keys + cells.length ∧
      (row_decode_go ms cellnum cells.length ⟨data, pos⟩ st).stats.keys_sz
        = st.keys_sz + ((cells.map List.length).sum : Int) := by
  intro cells
  induction cells with
  | nil =>
    intro data tail pos st cellnum hb hshape hms
    refine ⟨rfl, ?_, ?_⟩ <;> simp [row_decode_go]
  | cons pl t ih =>
    intro data tail pos st cellnum hb hshape hms
    have hl : pl.length ≤ 63 := hb pl (by simp)
    have henc : encodeShortKeys (pl :: t)
        = (4 * pl.length + 1) :: (pl ++ encodeShortKeys t) := rfl
    have hlenc : (encodeShortKeys (pl :: t)).length
        = 1 + pl.length + (encodeShortKeys t).length := by
      rw [henc]
      simp
      omega
    have hshape' : data.drop pos
        = (4 * pl.length + 1) :: (pl ++ (encodeShortKeys t ++ tail)) := by
      rw [hshape, henc]
      simp [List.append_assoc]
    have hdc := decode_cell_short_key data pos pl (encodeShortKeys t ++ tail) st hl hshape'
    have hpos : (⟨data, pos⟩ : BinFile).tell < ms := by
      show pos < ms
      omega
    have hstep := row_go_step ms cellnum t.length ⟨data, pos⟩ st hpos _ _ _ _ hdc
    have hdropnext : data.drop (pos + 1 + pl.length) = encodeShortKeys t ++ tail := by
      have h2 := List.drop_drop (1 + pl.length) pos data
      rw [hshape'] at h2
      rw [show pos + 1 + pl.length = pos + (1 + pl.length) from by ring, ← h2,
        show 1 + pl.length = pl.length + 1 from by ring, List.drop_succ_cons,
        List.drop_left' rfl]
    have hms' : (pos + 1 + pl.length) + (encodeShortKeys t).length ≤ ms := by
      omega
    have hrec := ih data tail (pos + 1 + pl.length)
      { st with num_keys := st.num_keys + 1, keys_sz := st.keys_sz + pl.length }
      (cellnum + 1) (fun x hx => hb x (by simp [hx])) hdropnext hms'
    rw [show (pl :: t).length = t.length + 1 from rfl, hstep]
    refine ⟨hrec.1, ?_, ?_⟩
    · show (row_decode_go ms (cellnum + 1) t.length _ _).stats.num_keys = _
      rw [hrec.2.1]
      simp
      omega
    · show (row_decode_go ms (cellnum + 1) t.length _ _).stats.keys_sz = _
      rw [hrec.2.2]
      simp
      ring

/-- C3: in the cell loop, every successfully decoded cell of a key-like
kind (key, key-prefix, address-leaf-no-overflow, key-overflow, short
key, short key-with-prefix) increments num_keys by exactly one and
keys_sz by exactly the decoded length, and a cell of any other kind
leaves both fields unchanged; hence a page of N short-key cells of
known lengths decodes with num_keys = N and keys_sz the sum of the
lengths. -/
theorem cell_key_accounting :
    (∀ (b : BinFile) (st : PageStats) (kind : CellKind) (l : Int) (b' : BinFile)
      (st' : PageStats), decode_cell b st = .ok (kind, l, b', st') →
      (kind ∈ keyKinds →
        st'.num_keys = st.num_keys + 1 ∧ st'.keys_sz = st.keys_sz + l) ∧
      (kind ∉ keyKinds →
        st'.num_keys = st.num_keys ∧ st'.keys_sz = st.keys_sz)) ∧
    (∀ (cells : List (List Nat)) (ms : Nat),
      (∀ pl ∈ cells, pl.length ≤ 63) →
      (encodeShortKeys cells).length ≤ ms →
      (row_decode ms cells.length ⟨encodeShortKeys cells, 0⟩ PageStats.init).err = none ∧
      (row_decode ms cells.length ⟨encodeShortKeys cells, 0⟩ PageStats.init).stats.num_keys
        = cells.length ∧
      (row_decode ms cells.length ⟨encodeShortKeys cells, 0⟩ PageStats.init).stats.keys_sz
        = ((cells.map List.length).sum : Int)) := by
  constructor
  · intro b st kind l b' st' h
    exact decode_cell_keys h
  · intro cells ms hb hms
    have h := short_key_page_go ms cells (encodeShortKeys cells) [] 0 PageStats.init 0
      hb (by simp) (by omega)
    refine ⟨h.1, ?_, ?_⟩
    · show (row_decode_go ms 0 cells.length ⟨encodeShortKeys cells, 0⟩
        PageStats.init).stats.num_keys = cells.length
      rw [h.2.1]
      show 0 + cells.length = cells.length
      omega
    · show (row_decode_go ms 0 cells.length ⟨encodeShortKeys cells, 0⟩
        PageStats.init).stats.keys_sz = ((cells.map List.length).sum : Int)
      rw [h.2.2]
      show (0 : Int) + _ = _
      ring

/-- Witness for C3: a concrete short-key cell of length 2 increments
the counters from zero, and a concrete page of two short keys of
lengths 1 and 2 ends with two keys totalling three bytes. -/
theorem cell_key_accounting_witness :
    ((1 : Nat) = PageStats.init.num_keys + 1 ∧ (2 : Int) = PageStats.init.keys_sz + 2) ∧
    (row_decode 5 2 ⟨encodeShortKeys [[65], [66, 67]], 0⟩ PageStats.init).stats.num_keys
      = 2 ∧
    (row_decode 5 2 ⟨encodeShortKeys [[65], [66, 67]], 0⟩ PageStats.init).stats.keys_sz
      = 3 := by
  constructor
  · exact (cell_key_accounting.1 ⟨[9, 65, 66], 0⟩ PageStats.init CellKind.shortKey 2
      ⟨[9, 65, 66], 3⟩ ⟨1, 2, 0, 0, 0, 0, 0, 0, 0, 0, 0, 0, 0, 0⟩ (by decide)).1 (by decide)
  · have h := cell_key_accounting.2 [[65], [66, 67]] 5 (by decide) (by decide)
    exact ⟨h.2.1, h.2.2⟩

/-! ### Unknown cell types (C4) -/

/-- Counterexample to C4 as stated: a page whose first cell is a
long-form cell with unused type tag 13 (descriptor 0xD0) followed by a
short-key cell.  The decoder reports the unknown type but does NOT
halt: the second cell is still decoded (its begin_cell event appears
and num_keys becomes 1), and no exception is raised. -/
theorem unknown_cell_type_cx :
    (row_decode 4 2 ⟨[0xD0, 0x05, 0x41], 0⟩ PageStats.init).events
      = [.cellStart 0 0, .notImplemented 13, .cellStart 1 1] ∧
    (row_decode 4 2 ⟨[0xD0, 0x05, 0x41], 0⟩ PageStats.init).stats.num_keys = 1 ∧
    (row_decode 4 2 ⟨[0xD0, 0x05, 0x41], 0⟩ PageStats.init).err = none := by
  refine ⟨?_, ?_, ?_⟩ <;> decide

/-- C4 (amended): a long-form cell (low descriptor bits 00, no extra
descriptor byte, no run length) whose top-4-bit type tag is not a
recognized cell type decodes as a reported not-implemented cell that
consumes only the descriptor byte and changes nothing else, and the
cell loop then continues with the next cell at the following position
(decoding of the page is not halted); no exception is raised, so the
scan of subsequent blocks also continues. -/
theorem unknown_cell_type_continues :
    (∀ (data : List Nat) (pos : Nat) (desc : Nat) (t : List Nat) (st : PageStats),
      data.drop pos = desc :: t →
      desc &&& 0x3 = 0 → desc &&& 0x8 = 0 → desc &&& 0x4 = 0 →
      celltype_string ((desc &&& 0xf0) >>> 4) = "*** unknown cell type ***" →
      decode_cell ⟨data, pos⟩ st
        = .ok (.notImplemented ((desc &&& 0xf0) >>> 4), 0, ⟨data, pos + 1⟩, st)) ∧
    (∀ (ms cellnum r : Nat) (data : List Nat) (pos : Nat) (desc : Nat) (t : List Nat)
      (st : PageStats),
      data.drop pos = desc :: t →
      desc &&& 0x3 = 0 → desc &&& 0x8 = 0 → desc &&& 0x4 = 0 →
      celltype_string ((desc &&& 0xf0) >>> 4) = "*** unknown cell type ***" →
      pos < ms →
      row_decode_go ms cellnum (r + 1) ⟨data, pos⟩ st
        = ⟨(row_decode_go ms (cellnum + 1) r ⟨data, pos + 1⟩ st).err,
           (row_decode_go ms (cellnum + 1) r ⟨data, pos + 1⟩ st).b,
           (row_decode_go ms (cellnum + 1) r ⟨data, pos + 1⟩ st).stats,
           .cellStart cellnum pos :: .notImplemented ((desc &&& 0xf0) >>> 4)
             :: (row_decode_go ms (cellnum + 1) r ⟨data, pos + 1⟩ st).events⟩) := by
  have main : ∀ (data : List Nat) (pos : Nat) (desc : Nat) (t : List Nat) (st : PageStats),
      data.drop pos = desc :: t →
      desc &&& 0x3 = 0 → desc &&& 0x8 = 0 → desc &&& 0x4 = 0 →
      celltype_string ((desc &&& 0xf0) >>> 4) = "*** unknown cell type ***" →
      decode_cell ⟨data, pos⟩ st
        = .ok (.notImplemented ((desc &&& 0xf0) >>> 4), 0, ⟨data, pos + 1⟩, st) := by
    intro data pos desc t st hshape h3 h8 h4 hstr
    simp only [decode_cell, uint8_cons data pos _ _ hshape, h3]
    simp only [extraStep, runlengthStep, dispatchCell, h8, h4, hstr]
    simp [Except.bind]
  refine ⟨main, ?_⟩
  intro ms cellnum r data pos desc t st hshape h3 h8 h4 hstr hpos
  have hdc := main data pos desc t st hshape h3 h8 h4 hstr
  have hstep := row_go_step ms cellnum r ⟨data, pos⟩ st hpos _ _ _ _ hdc
  rw [hstep]
  rfl

/-- Witness for C4: the amended theorem applied to the concrete
descriptor 0xD0 (type tag 13) with one trailing byte. -/
theorem unknown_cell_type_continues_witness :
    decode_cell ⟨[0xD0, 7], 0⟩ PageStats.init
      = .ok (.notImplemented 13, 0, ⟨[0xD0, 7], 1⟩, PageStats.init) := by
  have h := unknown_cell_type_continues.1 [0xD0, 7] 0 0xD0 [7] PageStats.init
    (by decide) (by decide) (by decide) (by decide) (by decide)
  exact h

/-! ### Long-form length encodings (C9, C10) -/

theorem unpack_uint64_inv {b : BinFile} {out : Int × BinFile}
    (h : unpack_uint64 b = .ok out) :
    ∃ v r, unpack_int (b.data.drop b.pos) = .ok (v, r) ∧ out.1 = v := by
  rw [unpack_uint64] at h
  cases hu : unpack_int (b.data.drop b.pos) with
  | error e =>
    rw [hu] at h
    cases h
  | ok vr =>
    obtain ⟨v, r⟩ := vr
    rw [hu] at h
    cases h
    exact ⟨v, r, rfl, rfl⟩

theorem long_length_inv {b : BinFile} {out : Int × BinFile}
    (h : long_length b = .ok out) :
    ∃ v r, unpack_int (b.data.drop b.pos) = .ok (v, r) ∧ out.1 = v + 64 := by
  rw [long_length] at h
  obtain ⟨vb, hv, h⟩ := except_bind_ok h
  obtain ⟨v, r, hu, hv1⟩ := unpack_uint64_inv hv
  cases h
  exact ⟨v, r, hu, by rw [hv1]⟩

theorem decode_cell_long_plain {data : List Nat} {pos : Nat} {desc : Nat}
    {rest : List Nat} (st : PageStats) (hshape : data.drop pos = desc :: rest)
    (h3 : desc &&& 0x3 = 0) (h8 : desc &&& 0x8 = 0) (h4 : desc &&& 0x4 = 0) :
    decode_cell ⟨data, pos⟩ st = dispatchCell desc 0 ⟨data, pos + 1⟩ st := by
  simp only [decode_cell, uint8_cons data pos _ _ hshape, h3]
  simp only [extraStep, runlengthStep, h8, h4]
  simp [Except.bind]

theorem drop_pos_one {data rest : List Nat} {pos desc : Nat}
    (hshape : data.drop pos = desc :: rest) : data.drop (pos + 1) = rest := by
  have h2 := List.drop_drop 1 pos data
  rw [hshape] at h2
  rw [← h2]
  rfl

/-- C9: for a successfully decoded long-form cell with no extra
descriptor byte and no run length, the decoded data length is the
varint that follows the descriptor (and the prefix byte, for
key-prefix cells) plus 64 for the key, address-leaf-no-overflow and
key-prefix type tags, and the raw varint with no offset for the
key-overflow and value-overflow type tags. -/
theorem long_form_length_encodings :
    ∀ (data : List Nat) (pos : Nat) (desc : Nat) (rest : List Nat) (st : PageStats)
      (kind : CellKind) (l : Int) (b' : BinFile) (st' : PageStats),
      data.drop pos = desc :: rest →
      desc &&& 0x3 = 0 → desc &&& 0x8 = 0 → desc &&& 0x4 = 0 →
      decode_cell ⟨data, pos⟩ st = .ok (kind, l, b', st') →
      (((desc &&& 0xf0) >>> 4 = 5 ∨ (desc &&& 0xf0) >>> 4 = 3) →
        ∃ v r, unpack_int rest = .ok (v, r) ∧ l = v + 64) ∧
      ((desc &&& 0xf0) >>> 4 = 7 →
        ∃ v r, unpack_int (rest.drop 1) = .ok (v, r) ∧ l = v + 64) ∧
      (((desc &&& 0xf0) >>> 4 = 6 ∨ (desc &&& 0xf0) >>> 4 = 10) →
        ∃ v r, unpack_int rest = .ok (v, r) ∧ l = v) := by
  intro data pos desc rest st kind l b' st' hshape h3 h8 h4 hdec
  rw [decode_cell_long_plain st hshape h3 h8 h4] at hdec
  have hdrop1 : data.drop (pos + 1) = rest := drop_pos_one hshape
  have hb1 : (⟨data, pos + 1⟩ : BinFile).data.drop (⟨data, pos + 1⟩ : BinFile).pos
      = rest := hdrop1
  refine ⟨?_, ?_, ?_⟩
  · intro htag
    rcases htag with htag | htag
    · simp only [dispatchCell] at hdec
      rw [htag, show celltype_string 5 = "WT_CELL_KEY" from rfl,
        if_neg (by decide), if_pos (by decide)] at hdec
      obtain ⟨lb, hlb, hdec⟩ := except_bind_ok hdec
      obtain ⟨xb, hxb, hdec⟩ := except_bind_ok hdec
      obtain ⟨v, r, hu, hl1⟩ := long_length_inv hlb
      rw [hb1] at hu
      cases hdec
      exact ⟨v, r, hu, hl1⟩
    · simp only [dispatchCell] at hdec
      rw [htag, show celltype_string 3 = "WT_CELL_ADDR_LEAF_NO" from rfl,
        if_neg (by decide), if_neg (by decide), if_pos (by decide)] at hdec
      obtain ⟨lb, hlb, hdec⟩ := except_bind_ok hdec
      obtain ⟨xb, hxb, hdec⟩ := except_bind_ok hdec
      obtain ⟨v, r, hu, hl1⟩ := long_length_inv hlb
      rw [hb1] at hu
      cases hdec
      exact ⟨v, r, hu, hl1⟩
  · intro htag
    simp only [dispatchCell] at hdec
    rw [htag, show celltype_string 7 = "WT_CELL_KEY_PFX" from rfl,
      if_neg (by decide), if_neg (by decide), if_neg (by decide),
      if_pos (by decide)] at hdec
    have hpfx : (uint8 ⟨data, pos + 1⟩).2.data.drop (uint8 ⟨data, pos + 1⟩).2.pos
        = rest.drop 1 := by
      cases hrest : rest with
      | nil =>
        have : (uint8 ⟨data, pos + 1⟩).2 = ⟨data, pos + 1⟩ := by
          simp [uint8, BinFile.read, hdrop1, hrest]
        rw [this]
        show data.drop (pos + 1) = _
        rw [hdrop1, hrest]
        rfl
      | cons e t =>
        have he : data.drop (pos + 1) = e :: t := by rw [hdrop1, hrest]
        rw [uint8_cons data (pos + 1) e t he]
        show data.drop (pos + 1 + 1) = _
        rw [drop_pos_one he]
        rfl
    obtain ⟨lb, hlb, hdec⟩ := except_bind_ok hdec
    obtain ⟨xb, hxb, hdec⟩ := except_bind_ok hdec
    obtain ⟨v, r, hu, hl1⟩ := long_length_inv hlb
    rw [hpfx] at hu
    cases hdec
    exact ⟨v, r, hu, hl1⟩
  · intro htag
    rcases htag with htag | htag
    · simp only [dispatchCell] at hdec
      rw [htag, show celltype_string 6 = "WT_CELL_KEY_OVFL" from rfl,
        if_neg (by decide), if_neg (by decide), if_neg (by decide),
        if_neg (by decide), if_pos (by decide)] at hdec
      obtain ⟨lb, hlb, hdec⟩ := except_bind_ok hdec
      obtain ⟨xb, hxb, hdec⟩ := except_bind_ok hdec
      obtain ⟨v, r, hu, hl1⟩ := unpack_uint64_inv hlb
      rw [hb1] at hu
      cases hdec
      exact ⟨v, r, hu, hl1⟩
    · simp only [dispatchCell] at hdec
      rw [htag, show celltype_string 10 = "WT_CELL_VALUE_OVFL" from rfl,
        if_neg (by decide), if_neg (by decide), if_neg (by decide),
        if_neg (by decide), if_neg (by decide), if_pos (by decide)] at hdec
      obtain ⟨lb, hlb, hdec⟩ := except_bind_ok hdec
      obtain ⟨xb, hxb, hdec⟩ := except_bind_ok hdec
      obtain ⟨v, r, hu, hl1⟩ := unpack_uint64_inv hlb
      rw [hb1] at hu
      cases hdec
      exact ⟨v, r, hu, hl1⟩

/-- Witness for C9: a concrete KEY cell with descriptor 0x50 and
length varint 0x82 (value 2) decodes with data length 2 + 64 = 66. -/
theorem long_form_length_encodings_witness :
    ∃ v r, unpack_int [0x82, 1, 2] = .ok (v, r) ∧ (66 : Int) = v + 64 := by
  exact (long_form_length_encodings [0x50, 0x82, 1, 2] 0 0x50 [0x82, 1, 2]
    PageStats.init CellKind.key 66 ⟨[0x50, 0x82, 1, 2], 4⟩
    ⟨1, 66, 0, 0, 0, 0, 0, 0, 0, 0, 0, 0, 0, 0⟩ (by decide) (by decide) (by decide)
    (by decide) (by decide)).1 (Or.inl (by decide))

theorem read1_cons {data : List Nat} {pos x : Nat} {t : List Nat}
    (hshape : data.drop pos = x :: t) :
    read1 ⟨data, pos⟩ = .ok (x, ⟨data, pos + 1⟩) := by
  simp [read1, BinFile.read, hshape]

theorem process_timestamps_zero (b : BinFile) (st : PageStats) :
    process_timestamps b 0 st = .ok (b, st) := by
  rw [process_timestamps]
  simp

theorem except_ok_bind {ε α β : Type} (a : α) (f : α → Except ε β) :
    (Except.ok a : Except ε α).bind f = f a :=
  rfl

theorem decode_cell_long {data : List Nat} {pos : Nat} {desc : Nat}
    {rest : List Nat} (st : PageStats) (hshape : data.drop pos = desc :: rest)
    (h3 : desc &&& 0x3 = 0) :
    decode_cell ⟨data, pos⟩ st
      = (extraStep desc ⟨data, pos + 1⟩ st).bind fun ebs =>
          (runlengthStep desc ebs.2.1).bind fun b2 =>
            dispatchCell desc ebs.1 b2 ebs.2.2 := by
  simp only [decode_cell, uint8_cons data pos _ _ hshape, h3]
  simp

/-- C10: for a long-form VALUE cell (type tag 8, no run length), the
length encoding depends on the extra descriptor byte: with no extra
descriptor byte (bit 4 clear) the data length is the decoded varint
plus 64; with an extra descriptor byte that is zero it is likewise the
varint plus 64 (decoded after the extra byte); with a nonzero extra
descriptor byte the data length is the raw decoded varint with no
offset, decoded after the timestamp fields the extra byte announces. -/
theorem value_cell_length_encodings :
    ∀ (data : List Nat) (pos : Nat) (desc : Nat) (rest : List Nat) (st : PageStats)
      (kind : CellKind) (l : Int) (b' : BinFile) (st' : PageStats),
      data.drop pos = desc :: rest →
      desc &&& 0x3 = 0 → desc &&& 0x4 = 0 → (desc &&& 0xf0) >>> 4 = 8 →
      decode_cell ⟨data, pos⟩ st = .ok (kind, l, b', st') →
      (desc &&& 0x8 = 0 → ∃ v r, unpack_int rest = .ok (v, r) ∧ l = v + 64) ∧
      (∀ e t, desc &&& 0x8 ≠ 0 → rest = e :: t → e ≠ 0 →
        ∃ bst, process_timestamps ⟨data, pos + 2⟩ e st = .ok bst ∧
          ∃ v r, unpack_int (bst.1.data.drop bst.1.pos) = .ok (v, r) ∧ l = v) ∧
      (∀ t, desc &&& 0x8 ≠ 0 → rest = 0 :: t →
        ∃ v r, unpack_int t = .ok (v, r) ∧ l = v + 64) := by
  intro data pos desc rest st kind l b' st' hshape h3 h4 htag hdec
  rw [decode_cell_long st hshape h3] at hdec
  have hdrop1 : data.drop (pos + 1) = rest := drop_pos_one hshape
  refine ⟨?_, ?_, ?_⟩
  · intro h8
    simp only [extraStep, h8] at hdec
    rw [if_neg (by decide)] at hdec
    simp only [Except.bind] at hdec
    simp only [runlengthStep, h4] at hdec
    rw [if_neg (by decide)] at hdec
    simp only [Except.bind] at hdec
    simp only [dispatchCell] at hdec
    rw [htag, show celltype_string 8 = "WT_CELL_VALUE" from rfl,
      if_pos (by decide), if_neg (by decide)] at hdec
    obtain ⟨lb, hlb, hdec⟩ := except_bind_ok hdec
    obtain ⟨xb, hxb, hdec⟩ := except_bind_ok hdec
    obtain ⟨v, r, hu, hl1⟩ := long_length_inv hlb
    rw [show (⟨data, pos + 1⟩ : BinFile).data.drop (⟨data, pos + 1⟩ : BinFile).pos
      = rest from hdrop1] at hu
    cases hdec
    exact ⟨v, r, hu, hl1⟩
  · intro e t h8 hrest he0
    have hcons : data.drop (pos + 1) = e :: t := by rw [hdrop1, hrest]
    simp only [extraStep, h8] at hdec
    rw [if_pos (by simpa using h8), read1_cons hcons] at hdec
    simp only [except_ok_bind] at hdec
    obtain ⟨ebs, hX, hdec⟩ := except_bind_ok hdec
    obtain ⟨pst, hpt, heb⟩ := except_bind_ok hX
    cases heb
    dsimp only at hdec
    obtain ⟨b2, hrun, hdec⟩ := except_bind_ok hdec
    simp only [runlengthStep, h4] at hrun
    rw [if_neg (by decide)] at hrun
    cases hrun
    simp only [dispatchCell] at hdec
    rw [htag, show celltype_string 8 = "WT_CELL_VALUE" from rfl,
      if_pos (by decide), if_pos he0] at hdec
    obtain ⟨lb, hlb, hdec⟩ := except_bind_ok hdec
    obtain ⟨xb, hxb, hdec⟩ := except_bind_ok hdec
    obtain ⟨v, r, hu, hl1⟩ := unpack_uint64_inv hlb
    cases hdec
    exact ⟨pst, hpt, v, r, hu, hl1⟩
  · intro t h8 hrest
    have hcons : data.drop (pos + 1) = 0 :: t := by rw [hdrop1, hrest]
    have hdrop2 : data.drop (pos + 2) = t := drop_pos_one hcons
    simp only [extraStep, h8] at hdec
    rw [if_pos (by simpa using h8), read1_cons hcons] at hdec
    simp only [except_ok_bind] at hdec
    rw [show process_timestamps ⟨data, pos + 1 + 1⟩ 0 st
      = .ok (⟨data, pos + 1 + 1⟩, st) from process_timestamps_zero _ _] at hdec
    simp only [except_ok_bind] at hdec
    obtain ⟨b2, hrun, hdec⟩ := except_bind_ok hdec
    simp only [runlengthStep, h4] at hrun
    rw [if_neg (by decide)] at hrun
    cases hrun
    simp only [dispatchCell] at hdec
    rw [htag, show celltype_string 8 = "WT_CELL_VALUE" from rfl,
      if_pos (by decide), if_neg (by decide)] at hdec
    obtain ⟨lb, hlb, hdec⟩ := except_bind_ok hdec
    obtain ⟨xb, hxb, hdec⟩ := except_bind_ok hdec
    obtain ⟨v, r, hu, hl1⟩ := long_length_inv hlb
    rw [show (⟨data, pos + 1 + 1⟩ : BinFile).data.drop
      (⟨data, pos + 1 + 1⟩ : BinFile).pos = t from hdrop2] at hu
    cases hdec
    exact ⟨v, r, hu, hl1⟩

/-- Witness for C10: a concrete VALUE cell with descriptor 0x88, extra
byte 0x01 (prepared flag only) and raw length varint 0x82 decodes with
raw data length 2, no offset added. -/
theorem value_cell_length_encodings_witness :
    ∃ bst, process_timestamps ⟨[0x88, 0x01, 0x82, 7, 8], 2⟩ 1 PageStats.init
        = .ok bst ∧
      ∃ v r, unpack_int (bst.1.data.drop bst.1.pos) = .ok (v, r) ∧ (2 : Int) = v := by
  exact (value_cell_length_encodings [0x88, 0x01, 0x82, 7, 8] 0 0x88 [0x01, 0x82, 7, 8]
    PageStats.init CellKind.value 2 ⟨[0x88, 0x01, 0x82, 7, 8], 5⟩ PageStats.init
    (by decide) (by decide) (by decide) (by decide) (by decide)).2.1 1 [0x82, 7, 8]
    (by decide) (by decide) (by decide)

/-! ### Block decoding (C5, C6) -/

/-- Observable block-level events: the Printer output block_decode can
produce up to the point each claim concerns. -/
inductive BEvent where
  | garbagePageUnused
  | invalidPage
  | pageHeader
  | garbageBlockUnused
  | tooBig
  | blockHeader
  | eofBeforeEnd
  | checksumMismatch (computed : Nat)
  | compressedPage
  | rowEvent (e : REvent)
  | ovflPayload
  | unimplementedPageType (t : Nat)
deriving DecidableEq, Repr

/-- Result of decoding one block: a propagating exception if one was
raised, the file stream afterwards, the events, and the page stats. -/
structure BlockOut where
  err : Option PyErr
  b : BinFile
  events : List BEvent
  stats : PageStats
deriving DecidableEq, Repr

/-- Zeroing of the 4-byte checksum field at offsets 32-35 of the
checked range, as the source does before recomputing the CRC. -/
def zero_checksum (data : List Nat) : List Nat :=
  (((data.set 32 0).set 33 0).set 34 0).set 35 0

/-- The payload portion of block_decode, after the checksum step:
expand the payload (python-snappy absent, so compressed pages are
reported and skipped) and dispatch on the page type.  page_data is the
initially read 40-byte prefix; its length is the header length. -/
def block_payload (b : BinFile) (disk_pos : Nat) (page_data : List Nat)
    (memsize ncells ptype pflags disk_size : Nat) (evs : List BEvent) : BlockOut :=
  let payload_pos := b.tell
  let header_length := payload_pos - disk_pos
  if pflags &&& 1 ≠ 0 then
    ⟨none, b, evs ++ [.compressedPage], PageStats.init⟩
  else
    match readInt b ((memsize : Int) - (header_length : Int)) with
    | .error e => ⟨some e, b, evs, PageStats.init⟩
    | .ok (payload_data, b) =>
      let b := b.seek (disk_pos + disk_size)
      let page_full := page_data ++ payload_data
      let b_page : BinFile := ⟨page_full, header_length⟩
      if ptype == 6 || ptype == 7 then
        let out := row_decode memsize ncells b_page PageStats.init
        ⟨out.err, b, evs ++ out.events.map BEvent.rowEvent, out.stats⟩
      else if ptype == 5 then
        ⟨none, b, evs ++ [.ovflPayload], PageStats.init⟩
      else if ptype == 0 then
        ⟨none, b, evs, PageStats.init⟩
      else
        ⟨none, b, evs ++ [.unimplementedPageType ptype], PageStats.init⟩

/-- Source block_decode, with the optional crc32c capability as a
parameter, python-snappy absent, skip_data off and no csv output.  The
page header, block header, size sanity checks, checksum verification
and payload dispatch follow the source order; the checksum field of
the checked bytes is zeroed before the length comparison, exactly as
in the source. -/
def block_decode (crc : Option (List Nat → Nat)) (b : BinFile) : BlockOut :=
  let disk_pos := b.tell
  let r40 := b.read 40
  let page_data := r40.1
  let b := r40.2
  let p0 := uint64 (⟨page_data, 0⟩ : BinFile)
  let p1 := uint64 p0.2
  let p2 := uint32 p1.2
  let memsize := p2.1
  let p3 := uint32 p2.2
  let ncells := p3.1
  let p4 := uint8 p3.2
  let ptype := p4.1
  let p5 := uint8 p4.2
  let pflags := p5.1
  let p6 := uint8 p5.2
  let unused := p6.1
  let p7 := uint8 p6.2
  if unused ≠ 0 then ⟨none, b, [.garbagePageUnused], PageStats.init⟩
  else if ptype == 0 then ⟨none, b, [.invalidPage], PageStats.init⟩
  else
    let p8 := uint32 p7.2
    let disk_size := p8.1
    let p9 := uint32 p8.2
    let checksum := p9.1
    let p10 := uint8 p9.2
    let bflags := p10.1
    let p11 := uint8 p10.2
    if p11.1 ≠ 0 then ⟨none, b, [.pageHeader, .garbageBlockUnused], PageStats.init⟩
    else
      let p12 := uint8 p11.2
      if p12.1 ≠ 0 then ⟨none, b, [.pageHeader, .garbageBlockUnused], PageStats.init⟩
      else
        let p13 := uint8 p12.2
        if p13.1 ≠ 0 then ⟨none, b, [.pageHeader, .garbageBlockUnused], PageStats.init⟩
        else
        if 17 * 1024 * 1024 < disk_size then
          ⟨none, b, [.pageHeader, .tooBig], PageStats.init⟩
        else if disk_size < 40 then
          ⟨none, b, [.pageHeader], PageStats.init⟩
        else
          match crc with
          | some f =>
            let savepos := b.tell
            let b2 := b.seek disk_pos
            let check_size := if bflags &&& 1 ≠ 0 then disk_size else 64
            let rc := b2.read check_size
            let cdata := rc.1
            let b := rc.2.seek savepos
            if cdata.length < 36 then
              ⟨some .indexError, b, [.pageHeader, .blockHeader], PageStats.init⟩
            else
              let zeroed := zero_checksum cdata
              if cdata.length < check_size then
                ⟨none, b, [.pageHeader, .blockHeader, .eofBeforeEnd], PageStats.init⟩
              else
                let computed := f zeroed
                if computed ≠ checksum then
                  ⟨none, b, [.pageHeader, .blockHeader, .checksumMismatch computed],
                    PageStats.init⟩
                else
                  block_payload b disk_pos page_data memsize ncells ptype pflags
                    disk_size [.pageHeader, .blockHeader]
          | none =>
            block_payload b disk_pos page_data memsize ncells ptype pflags
              disk_size [.pageHeader, .blockHeader]

/-! ### File header and the block scan (C7) -/

/-- Observable events of file_header_decode. -/
inductive FEvent where
  | headerFields
  | badMagic
  | badMajor
  | badMinor
  | badUnused
  | headerOk
deriving DecidableEq, Repr

/-- Source file_header_decode: parse the 16-byte file header and
report the first invalid field, if any; it returns in every case. -/
def file_header_decode (b : BinFile) : BinFile × List FEvent :=
  let m := uint32 b
  let magic := m.1
  let mj := uint16 m.2
  let major := mj.1
  let mn := uint16 mj.2
  let minor := mn.1
  let ck := uint32 mn.2
  let un := uint32 ck.2
  let unused := un.1
  let b := un.2
  if magic ≠ 120897 then (b, [.headerFields, .badMagic])
  else if major ≠ 1 then (b, [.headerFields, .badMajor])
  else if minor ≠ 0 then (b, [.headerFields, .badMinor])
  else if unused ≠ 0 then (b, [.headerFields, .badUnused])
  else (b, [.headerFields, .headerOk])

/-- Observable events of the whole-file scan. -/
inductive WEvent where
  | fileHeader (e : FEvent)
  | decodeAt (pos : Nat)
  | blockEvent (e : BEvent)
  | errorDecoding (pos : Nat)
deriving DecidableEq, Repr

/-- Python (pos + 0x1FF) & ~0x1FF on nonnegative integers: round up to
the next 512-byte boundary. -/
def align512 (n : Nat) : Nat :=
  ((n + 0x1ff) >>> 9) <<< 9

/-- Source wtdecode_file_object while loop: decode blocks at aligned
offsets while input remains and the page limit is not reached; a block
exception is caught, reported, and the scan continues.  fuel bounds
the recursion; every loop guard is still checked, so a run with
sufficient fuel equals the source loop. -/
def wtdecode_go (crc : Option (List Nat → Nat)) (nbytes pages : Nat) :
    Nat → Nat → Nat → BinFile → List WEvent
  | 0, _, _, _ => []
  | fuel + 1, startblock, pagecount, b =>
    if (nbytes == 0 || startblock < nbytes) && (pages == 0 || pagecount < pages) then
      let b := b.seek startblock
      let out := block_decode crc b
      let evs := WEvent.decodeAt startblock :: out.events.map WEvent.blockEvent
        ++ (match out.err with
            | some _ => [WEvent.errorDecoding startblock]
            | none => [])
      let pos := align512 out.b.tell
      let startblock' := if startblock == pos then startblock + 0x200 else pos
      evs ++ wtdecode_go crc nbytes pages fuel startblock' (pagecount + 1) out.b
    else []

/-- Source wtdecode_file_object with offset 0 and a real file (not a
fragment): decode the file header, align to the next 512-byte
boundary, and scan blocks. -/
def wtdecode_file_object (crc : Option (List Nat → Nat)) (pages nbytes fuel : Nat)
    (b : BinFile) : List WEvent :=
  let hb := file_header_decode b
  let startblock := align512 hb.1.tell
  hb.2.map WEvent.fileHeader ++ wtdecode_go crc nbytes pages fuel startblock 0 hb.1

/-- Little-endian field of a byte list at an offset. -/
def field (d : List Nat) (off n : Nat) : Nat :=
  le_bytes ((d.drop off).take n)

theorem read_at (d : List Nat) (k n : Nat) (h : k + n ≤ d.length) :
    (⟨d, k⟩ : BinFile).read n = ((d.drop k).take n, ⟨d, k + n⟩) := by
  have hl : ((d.drop k).take n).length = n := by
    simp [List.length_take, List.length_drop]
    omega
  simp [BinFile.read, hl]

theorem read_full (b : BinFile) (n : Nat) (h : b.pos + n ≤ b.data.length) :
    b.read n = ((b.data.drop b.pos).take n, ⟨b.data, b.pos + n⟩) := by
  cases b with
  | mk data pos => exact read_at data pos n h

theorem uint8_at (d : List Nat) (k : Nat) (h : k + 1 ≤ d.length) :
    uint8 ⟨d, k⟩ = (field d k 1, ⟨d, k + 1⟩) := by
  simp [uint8, read_at d k 1 h, field]

theorem uint16_at (d : List Nat) (k : Nat) (h : k + 2 ≤ d.length) :
    uint16 ⟨d, k⟩ = (field d k 2, ⟨d, k + 2⟩) := by
  simp [uint16, read_at d k 2 h, field]

theorem uint32_at (d : List Nat) (k : Nat) (h : k + 4 ≤ d.length) :
    uint32 ⟨d, k⟩ = (field d k 4, ⟨d, k + 4⟩) := by
  simp [uint32, read_at d k 4 h, field]

theorem uint64_at (d : List Nat) (k : Nat) (h : k + 8 ≤ d.length) :
    uint64 ⟨d, k⟩ = (field d k 8, ⟨d, k + 8⟩) := by
  simp [uint64, read_at d k 8 h, field]

/-- C6 (amended): for a block whose page header passes the unused-byte
and page-type checks and whose block-header unused bytes are zero, a
declared disk_size above 17 MiB aborts the block with the too-big
diagnostic, and a declared disk_size below 40 aborts the block
silently (no diagnostic event); in both cases no exception is raised
and nothing beyond the 40 header bytes is read, so the scan continues
with the next block. -/
theorem block_size_bounds (crc : Option (List Nat → Nat)) (b : BinFile)
    (hav : b.pos + 40 ≤ b.data.length)
    (hunused : field ((b.data.drop b.pos).take 40) 26 1 = 0)
    (htype : field ((b.data.drop b.pos).take 40) 24 1 ≠ 0)
    (hu1 : field ((b.data.drop b.pos).take 40) 37 1 = 0)
    (hu2 : field ((b.data.drop b.pos).take 40) 38 1 = 0)
    (hu3 : field ((b.data.drop b.pos).take 40) 39 1 = 0) :
    (17 * 1024 * 1024 < field ((b.data.drop b.pos).take 40) 28 4 →
      block_decode crc b
        = ⟨none, ⟨b.data, b.pos + 40⟩, [.pageHeader, .tooBig], PageStats.init⟩) ∧
    (field ((b.data.drop b.pos).take 40) 28 4 < 40 →
      block_decode crc b
        = ⟨none, ⟨b.data, b.pos + 40⟩, [.pageHeader], PageStats.init⟩) := by
  set d := (b.data.drop b.pos).take 40 with hd
  have hdlen : d.length = 40 := by
    rw [hd]
    simp [List.length_take, List.length_drop]
    omega
  have hr40 := read_full b 40 hav
  rw [← hd] at hr40
  constructor <;> intro hsz <;>
  · simp only [block_decode, hr40, uint64_at d 0 (by omega), uint64_at d 8 (by omega),
      uint32_at d 16 (by omega), uint32_at d 20 (by omega), uint8_at d 24 (by omega),
      uint8_at d 25 (by omega), uint8_at d 26 (by omega), uint8_at d 27 (by omega),
      uint32_at d 28 (by omega), uint32_at d 32 (by omega), uint8_at d 36 (by omega),
      uint8_at d 37 (by omega), uint8_at d 38 (by omega), uint8_at d 39 (by omega)]
    simp only [hunused, hu1, hu2, hu3, ne_eq, not_true_eq_false, not_false_eq_true,
      if_false, if_true, ite_false, ite_true]
    rw [if_neg (by simp [htype])]
    first
      | rw [if_neg (show ¬(17 * 1024 * 1024 < field d 28 4) from by omega), if_pos hsz]
      | rw [if_pos hsz]

/-- A concrete 40-byte block prefix with page type 7, zero unused
bytes and declared disk_size 10 (below the 40-byte minimum). -/
def smallSizeBlock : List Nat :=
  List.replicate 24 0 ++ [7, 0, 0, 1] ++ [10, 0, 0, 0] ++ [0, 0, 0, 0] ++ [0, 0, 0, 0]

/-- Counterexample to C6 as stated: a block declaring disk_size 10 is
aborted, but silently: the only event is the page-header dump, with no
diagnostic message, while the claim requires a diagnosed error for
both violations. -/
theorem block_size_bounds_cx :
    block_decode none ⟨smallSizeBlock, 0⟩
      = ⟨none, ⟨smallSizeBlock, 40⟩, [.pageHeader], PageStats.init⟩ := by
  decide

/-- A concrete 40-byte block prefix declaring disk_size 18 MiB. -/
def hugeSizeBlock : List Nat :=
  List.replicate 24 0 ++ [7, 0, 0, 1] ++ [0, 0, 0x20, 0x01] ++ [0, 0, 0, 0] ++ [0, 0, 0, 0]

/-- Witness for C6: the amended theorem applied to the concrete block
declaring 18 MiB, which is diagnosed as too big without a crash and
without reading beyond the 40 header bytes. -/
theorem block_size_bounds_witness :
    block_decode none ⟨hugeSizeBlock, 0⟩
      = ⟨none, ⟨hugeSizeBlock, 40⟩, [.pageHeader, .tooBig], PageStats.init⟩ :=
  (block_size_bounds none ⟨hugeSizeBlock, 0⟩ (by decide) (by decide) (by decide)
    (by decide) (by decide) (by decide)).1 (by decide)

theorem block_checksum_reduction (f : List Nat → Nat) (b : BinFile)
    (hav : b.pos + 40 ≤ b.data.length)
    (hunused : field ((b.data.drop b.pos).take 40) 26 1 = 0)
    (htype : field ((b.data.drop b.pos).take 40) 24 1 ≠ 0)
    (hu1 : field ((b.data.drop b.pos).take 40) 37 1 = 0)
    (hu2 : field ((b.data.drop b.pos).take 40) 38 1 = 0)
    (hu3 : field ((b.data.drop b.pos).take 40) 39 1 = 0)
    (hlo : ¬ field ((b.data.drop b.pos).take 40) 28 4 < 40)
    (hhi : ¬ 17 * 1024 * 1024 < field ((b.data.drop b.pos).take 40) 28 4) :
    block_decode (some f) b
      = (if ((b.data.drop b.pos).take
            (if field ((b.data.drop b.pos).take 40) 36 1 &&& 1 ≠ 0
             then field ((b.data.drop b.pos).take 40) 28 4 else 64)).length < 36 then
          ⟨some .indexError, ⟨b.data, b.pos + 40⟩, [.pageHeader, .blockHeader],
            PageStats.init⟩
         else if ((b.data.drop b.pos).take
            (if field ((b.data.drop b.pos).take 40) 36 1 &&& 1 ≠ 0
             then field ((b.data.drop b.pos).take 40) 28 4 else 64)).length
             < (if field ((b.data.drop b.pos).take 40) 36 1 &&& 1 ≠ 0
                then field ((b.data.drop b.pos).take 40) 28 4 else 64) then
          ⟨none, ⟨b.data, b.pos + 40⟩, [.pageHeader, .blockHeader, .eofBeforeEnd],
            PageStats.init⟩
         else if f (zero_checksum ((b.data.drop b.pos).take
            (if field ((b.data.drop b.pos).take 40) 36 1 &&& 1 ≠ 0
             then field ((b.data.drop b.pos).take 40) 28 4 else 64)))
             ≠ field ((b.data.drop b.pos).take 40) 32 4 then
          ⟨none, ⟨b.data, b.pos + 40⟩,
            [.pageHeader, .blockHeader,
             .checksumMismatch (f (zero_checksum ((b.data.drop b.pos).take
               (if field ((b.data.drop b.pos).take 40) 36 1 &&& 1 ≠ 0
                then field ((b.data.drop b.pos).take 40) 28 4 else 64))))],
            PageStats.init⟩
         else
          block_payload ⟨b.data, b.pos + 40⟩ b.pos ((b.data.drop b.pos).take 40)
            (field ((b.data.drop b.pos).take 40) 16 4)
            (field ((b.data.drop b.pos).take 40) 20 4)
            (field ((b.data.drop b.pos).take 40) 24 1)
            (field ((b.data.drop b.pos).take 40) 25 1)
            (field ((b.data.drop b.pos).take 40) 28 4)
            [.pageHeader, .blockHeader]) := by
  set d := (b.data.drop b.pos).take 40 with hd
  have hdlen : d.length = 40 := by
    rw [hd]
    simp [List.length_take, List.length_drop]
    omega
  have hr40 := read_full b 40 hav
  rw [← hd] at hr40
  simp only [block_decode, hr40, uint64_at d 0 (by omega), uint64_at d 8 (by omega),
    uint32_at d 16 (by omega), uint32_at d 20 (by omega), uint8_at d 24 (by omega),
    uint8_at d 25 (by omega), uint8_at d 26 (by omega), uint8_at d 27 (by omega),
    uint32_at d 28 (by omega), uint32_at d 32 (by omega), uint8_at d 36 (by omega),
    uint8_at d 37 (by omega), uint8_at d 38 (by omega), uint8_at d 39 (by omega)]
  simp only [hunused, hu1, hu2, hu3, ne_eq, not_true_eq_false, not_false_eq_true,
    if_false, if_true, ite_false, ite_true]
  rw [if_neg (by simp [htype]), if_neg hhi, if_neg hlo]
  simp only [BinFile.tell, BinFile.seek, BinFile.read]

/-- C5 (amended): block checksum validation recomputes the CRC over
the full disk_size bytes when BlockHeader flags bit 0 is set and over
the first 64 bytes otherwise, with the 4 checksum bytes at offsets
32-35 from block start zeroed first; a differing value aborts the
block with the mismatch diagnostic, and a checked range only partially
available is diagnosed as reaching EOF before the end of the block
PROVIDED at least 36 bytes are available; with fewer than 36 bytes the
zeroing of the checksum field itself raises an IndexError, aborting the
block through the generic exception path rather than the truncation
diagnostic. -/
theorem checksum_validation (f : List Nat → Nat) (b : BinFile)
    (hav : b.pos + 40 ≤ b.data.length)
    (hunused : field ((b.data.drop b.pos).take 40) 26 1 = 0)
    (htype : field ((b.data.drop b.pos).take 40) 24 1 ≠ 0)
    (hu1 : field ((b.data.drop b.pos).take 40) 37 1 = 0)
    (hu2 : field ((b.data.drop b.pos).take 40) 38 1 = 0)
    (hu3 : field ((b.data.drop b.pos).take 40) 39 1 = 0)
    (hlo : 40 ≤ field ((b.data.drop b.pos).take 40) 28 4)
    (hhi : field ((b.data.drop b.pos).take 40) 28 4 ≤ 17 * 1024 * 1024) :
    ∀ cs, cs = (if field ((b.data.drop b.pos).take 40) 36 1 &&& 1 ≠ 0
        then field ((b.data.drop b.pos).take 40) 28 4 else 64) →
    ∀ cdata, cdata = (b.data.drop b.pos).take cs →
    ((cdata.length < 36 →
      block_decode (some f) b = ⟨some .indexError, ⟨b.data, b.pos + 40⟩,
        [.pageHeader, .blockHeader], PageStats.init⟩) ∧
     (36 ≤ cdata.length → cdata.length < cs →
      block_decode (some f) b = ⟨none, ⟨b.data, b.pos + 40⟩,
        [.pageHeader, .blockHeader, .eofBeforeEnd], PageStats.init⟩) ∧
     (cs ≤ cdata.length →
      f (zero_checksum cdata) ≠ field ((b.data.drop b.pos).take 40) 32 4 →
      block_decode (some f) b = ⟨none, ⟨b.data, b.pos + 40⟩,
        [.pageHeader, .blockHeader, .checksumMismatch (f (zero_checksum cdata))],
        PageStats.init⟩)) := by
  intro cs hcs cdata hcd
  have hred := block_checksum_reduction f b hav hunused htype hu1 hu2 hu3
    (by omega) (by omega)
  subst hcd
  subst hcs
  have hcs40 : 40 ≤ (if field ((b.data.drop b.pos).take 40) 36 1 &&& 1 ≠ 0
      then field ((b.data.drop b.pos).take 40) 28 4 else 64) := by
    split <;> omega
  refine ⟨?_, ?_, ?_⟩
  · intro h36
    rw [hred, if_pos h36]
  · intro h36 hlt
    rw [hred, if_neg (by omega), if_pos hlt]
  · intro hge hne
    rw [hred, if_neg (by omega), if_neg (by omega), if_pos hne]

/-- A block start with a valid-looking header but only 33 bytes of
file remaining: disk_size reads 40, the missing trailing header bytes
read as zero, and the checksum range (64 bytes, flag bit clear) is not
fully available. -/
def truncatedBlock : List Nat :=
  List.replicate 24 0 ++ [7, 0, 0, 1] ++ [40, 0, 0, 0] ++ [0]

/-- Counterexample to C5 as stated: fewer bytes (33) are available
than the required 64-byte check range, yet the block is not diagnosed
as truncated: zeroing the checksum field raises an IndexError first,
so the block aborts through the exception path with no truncation
diagnostic. -/
theorem checksum_validation_cx :
    truncatedBlock.length < 64 ∧
    block_decode (some fun _ => 0) ⟨truncatedBlock, 0⟩
      = ⟨some .indexError, ⟨truncatedBlock, 33⟩, [.pageHeader, .blockHeader],
          PageStats.init⟩ := by
  exact ⟨by decide, by decide⟩

/-- A full 64-byte block whose stored checksum (0) will not match the
recomputed one when the CRC function returns 1. -/
def mismatchBlock : List Nat :=
  List.replicate 24 0 ++ [7, 0, 0, 1] ++ [40, 0, 0, 0] ++ [0, 0, 0, 0] ++ [0, 0, 0, 0]
    ++ List.replicate 24 9

/-- Witness for C5: the amended theorem applied to a concrete block
with flag bit 0 clear (64-byte check range) and a CRC capability that
returns 1, differing from the stored checksum 0: the block aborts with
the mismatch diagnostic. -/
theorem checksum_validation_witness :
    block_decode (some fun _ => 1) ⟨mismatchBlock, 0⟩
      = ⟨none, ⟨mismatchBlock, 40⟩,
          [.pageHeader, .blockHeader, .checksumMismatch 1], PageStats.init⟩ := by
  exact (checksum_validation (fun _ => 1) ⟨mismatchBlock, 0⟩ (by decide) (by decide)
    (by decide) (by decide) (by decide) (by decide) (by decide) (by decide)
    64 (by decide) (mismatchBlock.take 64) (by decide)).2.2 (by decide) (by decide)

/-- C7 (amended): a file header whose magic differs from 120897, or
whose major is not 1, minor is not 0, or reserved word is nonzero, is
reported with the corresponding bad-field diagnostic and the header
decode returns early; but the rejection is NOT fatal: the block scan
still proceeds to decode blocks at the first aligned offset whenever
the loop guards (remaining input, page limit) permit, for any file
contents. -/
theorem file_header_not_fatal :
    (∀ b : BinFile, (uint32 b).1 ≠ 120897 →
      (file_header_decode b).2 = [.headerFields, .badMagic]) ∧
    (∀ b : BinFile, (uint32 b).1 = 120897 → (uint16 (uint32 b).2).1 ≠ 1 →
      (file_header_decode b).2 = [.headerFields, .badMajor]) ∧
    (∀ b : BinFile, (uint32 b).1 = 120897 → (uint16 (uint32 b).2).1 = 1 →
      (uint16 (uint16 (uint32 b).2).2).1 ≠ 0 →
      (file_header_decode b).2 = [.headerFields, .badMinor]) ∧
    (∀ b : BinFile, (uint32 b).1 = 120897 → (uint16 (uint32 b).2).1 = 1 →
      (uint16 (uint16 (uint32 b).2).2).1 = 0 →
      (uint32 (uint32 (uint16 (uint16 (uint32 b).2).2).2).2).1 ≠ 0 →
      (file_header_decode b).2 = [.headerFields, .badUnused]) ∧
    (∀ (crc : Option (List Nat → Nat)) (pages nbytes fuel : Nat) (b : BinFile),
      1 ≤ fuel →
      (nbytes = 0 ∨ align512 (file_header_decode b).1.tell < nbytes) →
      (pages = 0 ∨ 0 < pages) →
      WEvent.decodeAt (align512 (file_header_decode b).1.tell)
        ∈ wtdecode_file_object crc pages nbytes fuel b) := by
  refine ⟨?_, ?_, ?_, ?_, ?_⟩
  · intro b h
    simp only [file_header_decode]
    rw [if_pos h]
  · intro b h1 h2
    simp only [file_header_decode]
    rw [if_neg (by simp [h1]), if_pos h2]
  · intro b h1 h2 h3
    simp only [file_header_decode]
    rw [if_neg (by simp [h1]), if_neg (by simp [h2]), if_pos h3]
  · intro b h1 h2 h3 h4
    simp only [file_header_decode]
    rw [if_neg (by simp [h1]), if_neg (by simp [h2]), if_neg (by simp [h3]),
      if_pos h4]
  · intro crc pages nbytes fuel b hfuel hn hp
    cases fuel with
    | zero => omega
    | succ f =>
      simp only [wtdecode_file_object, wtdecode_go]
      rw [if_pos ?hc]
      case hc =>
        simp only [Bool.and_eq_true, Bool.or_eq_true, decide_eq_true_eq, beq_iff_eq]
        exact ⟨hn.imp id id, hp.imp id (fun h => h)⟩
      refine List.mem_append.mpr (Or.inr ?_)
      exact List.mem_cons_self _ _

/-- A well-formed standalone block: page type row-leaf, memsize 40,
ncells 0, disk_size 40, all unused bytes zero. -/
def okBlock : List Nat :=
  List.replicate 16 0 ++ [40, 0, 0, 0] ++ [0, 0, 0, 0] ++ [7, 0, 0, 1]
    ++ [40, 0, 0, 0] ++ [0, 0, 0, 0] ++ [0, 0, 0, 0]

/-- A file whose header magic is 0 (invalid) followed by a well-formed
block at the first aligned offset, 512. -/
def badMagicFile : List Nat :=
  List.replicate 512 0 ++ okBlock

set_option maxRecDepth 100000 in
/-- Counterexample to C7 as stated: the file header is rejected (bad
magic reported), yet the scan is not aborted: the block at offset 512
is still decoded, producing its page-header and block-header output. -/
theorem file_header_not_fatal_cx :
    wtdecode_file_object none 1 552 1 ⟨badMagicFile, 0⟩
      = [.fileHeader .headerFields, .fileHeader .badMagic, .decodeAt 512,
         .blockEvent .pageHeader, .blockEvent .blockHeader] := by
  decide

set_option maxRecDepth 100000 in
/-- Witness for C7: the amended theorem applied to a concrete all-zero
header (bad magic diagnostic) and to the concrete bad-magic file,
whose scan still reaches the block at offset 512. -/
theorem file_header_not_fatal_witness :
    (file_header_decode ⟨List.replicate 16 0, 0⟩).2 = [.headerFields, .badMagic] ∧
    WEvent.decodeAt 512 ∈ wtdecode_file_object none 1 552 1 ⟨badMagicFile, 0⟩ := by
  constructor
  · exact file_header_not_fatal.1 ⟨List.replicate 16 0, 0⟩ (by decide)
  · have h := file_header_not_fatal.2.2.2.2 none 1 552 1 ⟨badMagicFile, 0⟩
      (by omega) (Or.inr (by decide)) (Or.inr (by omega))
    exact h
